import Mathlib

/-!
# A minimal HTTP/1.1 server: request parser, response builder, dispatcher

Shallow embedding of `parser.go`, `response.go`, `compression.go`,
`handler.go` and the connection loop of `main.go`.

* Go strings and byte slices are lists of bytes (`Bytes`); a byte is a natural
  number below 256.
* The `bufio.Reader` over the connection is the list of bytes that are still
  to arrive on it; the end of the list is the end of the stream (the peer
  closed, or the read deadline passed).  Every reading function returns the
  unread remainder together with its result.
* A Go `map[string]string` is the list of its entries, keys pairwise distinct,
  in the order a `range` statement visits them.  Go leaves that order
  unspecified, so what is said about code that ranges over a map is said for
  every ordering of the entries.
* Library routines are modelled after their documented behaviour
  (`strings.TrimSpace`, `strings.Split`, `strings.Index`, `strconv.Atoi`,
  `bufio.Reader.ReadString`, `io.ReadFull`, `fmt.Sprintf`); what depends on
  Unicode tables, on gzip or on the file system is a field of `Platform`.
-/

namespace HttpServer

/-- A Go string or byte slice. -/
abbrev Bytes := List Nat

/-- A Go `map[string]string`: its entries in iteration order. -/
abbrev GoMap := List (Bytes × Bytes)

/-- UTF-8 encoding of one character. -/
def encodeRune (c : Char) : Bytes :=
  let n := c.toNat
  if n < 0x80 then [n]
  else if n < 0x800 then [0xC0 + n / 64, 0x80 + n % 64]
  else if n < 0x10000 then [0xE0 + n / 4096, 0x80 + n / 64 % 64, 0x80 + n % 64]
  else [0xF0 + n / 262144, 0x80 + n / 4096 % 64, 0x80 + n / 64 % 64, 0x80 + n % 64]

/-- The bytes of a string literal of the Go source (UTF-8). -/
def bytes (s : String) : Bytes :=
  s.toList.foldr (fun c acc => encodeRune c ++ acc) []

/-- The line terminator `"\r\n"`. -/
def CRLF : Bytes := [13, 10]

/-! ## `strings.TrimSpace`

`TrimSpace` removes leading, then trailing, white space "as defined by
Unicode": the runes `\t \n \v \f \r`, space, U+0085, U+00A0, U+1680,
U+2000..U+200A, U+2028, U+2029, U+202F, U+205F and U+3000.  A rune is decoded
as one of these exactly when the bytes at hand are its UTF-8 encoding, and a
byte that starts no valid encoding decodes to U+FFFD, which is not white
space.
-/

/-- White space of one byte: `\t \n \v \f \r` and space. -/
def asciiSpace (b : Nat) : Bool :=
  b = 9 || b = 10 || b = 11 || b = 12 || b = 13 || b = 32

/-- White space of two bytes: U+0085 and U+00A0. -/
def space2 (b0 b1 : Nat) : Bool :=
  b0 = 0xC2 && (b1 = 0x85 || b1 = 0xA0)

/-- White space of three bytes: U+1680, U+2000..U+200A, U+2028, U+2029,
U+202F, U+205F, U+3000. -/
def space3 (b0 b1 b2 : Nat) : Bool :=
  (b0 = 0xE1 && b1 = 0x9A && b2 = 0x80) ||
  (b0 = 0xE2 && b1 = 0x80 &&
    ((0x80 ≤ b2 && b2 ≤ 0x8A) || b2 = 0xA8 || b2 = 0xA9 || b2 = 0xAF)) ||
  (b0 = 0xE2 && b1 = 0x81 && b2 = 0x9F) ||
  (b0 = 0xE3 && b1 = 0x80 && b2 = 0x80)

/-- Width in bytes of the white-space rune at the front of `s`, `0` when the
first rune of `s` is not white space (`utf8.DecodeRuneInString` followed by
`unicode.IsSpace`). -/
def spaceWidth : Bytes → Nat
  | b0 :: b1 :: b2 :: _ =>
    if asciiSpace b0 then 1 else if space2 b0 b1 then 2
    else if space3 b0 b1 b2 then 3 else 0
  | [b0, b1] => if asciiSpace b0 then 1 else if space2 b0 b1 then 2 else 0
  | [b0] => if asciiSpace b0 then 1 else 0
  | [] => 0

/-- Width in bytes of the white-space rune at the end of a string, given the
string reversed (`utf8.DecodeLastRuneInString` followed by
`unicode.IsSpace`). -/
def spaceWidthBack : Bytes → Nat
  | b2 :: b1 :: b0 :: _ =>
    if asciiSpace b2 then 1 else if space2 b1 b2 then 2
    else if space3 b0 b1 b2 then 3 else 0
  | [b1, b0] => if asciiSpace b1 then 1 else if space2 b0 b1 then 2 else 0
  | [b0] => if asciiSpace b0 then 1 else 0
  | [] => 0

/-- Drop white-space runes from the front while there is one; `n` bounds the
number of runes dropped. -/
def dropSpaces (width : Bytes → Nat) : Nat → Bytes → Bytes
  | 0, s => s
  | n + 1, s => if width s = 0 then s else dropSpaces width n (s.drop (width s))

/-- Leading white space removed (`strings.TrimLeftFunc(s, unicode.IsSpace)`). -/
def TrimLeft (s : Bytes) : Bytes := dropSpaces spaceWidth s.length s

/-- Trailing white space removed (`strings.TrimRightFunc(s, unicode.IsSpace)`). -/
def TrimRight (s : Bytes) : Bytes :=
  (dropSpaces spaceWidthBack s.length s.reverse).reverse

/-- The function `strings.TrimSpace`. -/
def TrimSpace (s : Bytes) : Bytes := TrimRight (TrimLeft s)

/-! ## Other library routines -/

/-- `strings.Split(s, sep)` for a separator of one byte. -/
def Split (sep : Nat) : Bytes → List Bytes
  | [] => [[]]
  | b :: rest =>
    if b = sep then [] :: Split sep rest
    else match Split sep rest with
      | part :: parts => (b :: part) :: parts
      | [] => [[b]]

/-- `strings.Index(s, c)` for a one-byte `c`; `none` stands for `-1`. -/
def Index (c : Nat) : Bytes → Option Nat
  | [] => none
  | b :: rest => if b = c then some 0 else (Index c rest).map (· + 1)

/-- `reader.ReadString(delim)`: the bytes up to and including the first
`delim`, and the unread rest; `none` when the stream ends before a `delim`
arrives (the call returns a non-nil error). -/
def ReadString (delim : Nat) : Bytes → Option (Bytes × Bytes)
  | [] => none
  | b :: rest =>
    if b = delim then some ([b], rest)
    else match ReadString delim rest with
      | some (line, rest') => some (b :: line, rest')
      | none => none

/-- `io.ReadFull(reader, buf)` with `len(buf) = n`: exactly `n` bytes and the
unread rest; `none` when the stream ends first. -/
def ReadFull (n : Nat) (reader : Bytes) : Option (Bytes × Bytes) :=
  if n ≤ reader.length then some (reader.take n, reader.drop n) else none

/-- Value of a run of decimal digits, most significant first, added to
`acc * 10 ^ length`; `none` when a byte is not a digit. -/
def parseDigits (acc : Nat) : Bytes → Option Nat
  | [] => some acc
  | ch :: rest =>
    if 48 ≤ ch ∧ ch ≤ 57 then parseDigits (acc * 10 + (ch - 48)) rest else none

/-- Value of a non-empty string of decimal digits. -/
def decimalValue (s : Bytes) : Option Nat :=
  if s = [] then none else parseDigits 0 s

/-- `strconv.Atoi` with a 64-bit `int`: an optional sign and at least one
decimal digit, the value within `-2^63 .. 2^63 - 1`; `none` is a non-nil
error. -/
def Atoi (s : Bytes) : Option Int :=
  match s with
  | [] => none
  | c :: rest =>
    if c = 45 then
      (decimalValue rest).bind fun n =>
        if n ≤ 2 ^ 63 then some (-(n : Int)) else none
    else
      (decimalValue (if c = 43 then rest else c :: rest)).bind fun n =>
        if n < 2 ^ 63 then some (n : Int) else none

/-- Decimal digits of `n` pushed in front of `acc`; `fuel` bounds the number
of digits. -/
def formatNatAux : Nat → Nat → Bytes → Bytes
  | 0, _, acc => acc
  | fuel + 1, n, acc =>
    if n < 10 then (48 + n) :: acc
    else formatNatAux fuel (n / 10) ((48 + n % 10) :: acc)

/-- Decimal rendering of a natural number. -/
def formatNat (n : Nat) : Bytes := formatNatAux (n + 1) n []

/-- `fmt.Sprintf("%d", i)`. -/
def formatInt (i : Int) : Bytes :=
  if i < 0 then 45 :: formatNat i.natAbs else formatNat i.toNat

/-- `m[k]` with the comma-ok form: the value stored under `k`, if any. -/
def mapGet : GoMap → Bytes → Option Bytes
  | [], _ => none
  | (k', v) :: rest, k => if k' = k then some v else mapGet rest k

/-- `m[k] = v`: overwrite the entry of `k`, or add one. -/
def mapSet : GoMap → Bytes → Bytes → GoMap
  | [], k, v => [(k, v)]
  | (k', v') :: rest, k, v =>
    if k' = k then (k, v) :: rest else (k', v') :: mapSet rest k v

/-- `strings.EqualFold`.  The loop over ASCII bytes is the library's; once a
byte of either string is not ASCII the library compares the remaining text
rune by rune under Unicode simple case folding, which is `foldUnicode`. -/
def EqualFold (foldUnicode : Bytes → Bytes → Bool) : Bytes → Bytes → Bool
  | sr :: s, tr :: t =>
    if 128 ≤ sr ∨ 128 ≤ tr then foldUnicode (sr :: s) (tr :: t)
    else if tr = sr then EqualFold foldUnicode s t
    else if 65 ≤ min sr tr ∧ min sr tr ≤ 90 ∧ max sr tr = min sr tr + 32 then
      EqualFold foldUnicode s t
    else false
  | [], [] => true
  | [], _ :: _ => false
  | _ :: _, [] => false

/-! ## `parser.go` -/

/-- The type `HTTPRequest`. -/
structure HTTPRequest where
  Method : Bytes
  Path : Bytes
  Version : Bytes
  Headers : GoMap
  Body : Bytes
  deriving DecidableEq, Repr

/-- The errors `ParseRequest` returns, one for each `fmt.Errorf` of the
source; the data is the text the message quotes. -/
inductive ParseError where
  | readRequestLine
  | invalidRequestLine (requestLine : Bytes)
  | readHeader
  | invalidContentLength
  | readBody
  deriving DecidableEq, Repr

/-- One pass of the header loop after the blank-line test: a line without a
colon is skipped, any other is stored under its trimmed name. -/
def storeHeader (headers : GoMap) (line : Bytes) : GoMap :=
  match Index 58 line with
  | none => headers
  | some colonIdx =>
    mapSet headers (TrimSpace (line.take colonIdx))
      (TrimSpace (line.drop (colonIdx + 1)))

/-- The header loop of `ParseRequest`.  Every pass reads at least one byte,
so `fuel` above the length of the stream is never used up. -/
def parseHeaders : Nat → GoMap → Bytes → Except ParseError (GoMap × Bytes)
  | 0, _, _ => .error .readHeader
  | fuel + 1, headers, reader =>
    match ReadString 10 reader with
    | none => .error .readHeader
    | some (line, reader) =>
      let line := TrimSpace line
      if line = [] then .ok (headers, reader)
      else parseHeaders fuel (storeHeader headers line) reader

/-- The body stage of `ParseRequest`: the declared number of bytes when the
map has a `Content-Length` entry with a positive value. -/
def readBody (headers : GoMap) (reader : Bytes) :
    Except ParseError (Bytes × Bytes) :=
  match mapGet headers (bytes "Content-Length") with
  | none => .ok ([], reader)
  | some contentLengthStr =>
    match Atoi contentLengthStr with
    | none => .error .invalidContentLength
    | some contentLength =>
      if contentLength > 0 then
        match ReadFull contentLength.toNat reader with
        | none => .error .readBody
        | some (body, reader) => .ok (body, reader)
      else .ok ([], reader)

/-- The function `ParseRequest`: the request and the unread rest of the
stream, or an error. -/
def ParseRequest (reader : Bytes) : Except ParseError (HTTPRequest × Bytes) :=
  match ReadString 10 reader with
  | none => .error .readRequestLine
  | some (requestLine, reader) =>
    let requestLine := TrimSpace requestLine
    match Split 32 requestLine with
    | [method, path, version] =>
      match parseHeaders (reader.length + 1) [] reader with
      | .error e => .error e
      | .ok (headers, reader) =>
        match readBody headers reader with
        | .error e => .error e
        | .ok (body, reader) =>
          .ok ({ Method := method, Path := path, Version := version,
                 Headers := headers, Body := body }, reader)
    | _ => .error (.invalidRequestLine requestLine)

/-- The method `GetHeader`: the value of the first entry, in iteration order,
whose name equals `name` under `strings.EqualFold`; empty when there is none. -/
def HTTPRequest.GetHeader (foldUnicode : Bytes → Bytes → Bool)
    (r : HTTPRequest) (name : Bytes) : Bytes :=
  match r.Headers.find? (fun kv => EqualFold foldUnicode kv.1 name) with
  | some kv => kv.2
  | none => []

/-- The method `ParseAcceptEncoding`. -/
def HTTPRequest.ParseAcceptEncoding (foldUnicode : Bytes → Bytes → Bool)
    (r : HTTPRequest) : List Bytes :=
  let acceptEncoding := r.GetHeader foldUnicode (bytes "Accept-Encoding")
  if acceptEncoding = [] then []
  else
    (Split 44 acceptEncoding).map fun part =>
      let scheme := TrimSpace part
      let scheme :=
        match Index 59 scheme with
        | some idx => scheme.take idx
        | none => scheme
      TrimSpace scheme

/-! ## `response.go` -/

/-- The type `HTTPResponse`. -/
structure HTTPResponse where
  StatusCode : Int
  StatusText : Bytes
  Headers : GoMap
  Body : Bytes
  deriving DecidableEq, Repr

/-- The function `NewResponse`. -/
def NewResponse (statusCode : Int) (statusText : Bytes) : HTTPResponse :=
  { StatusCode := statusCode, StatusText := statusText, Headers := [], Body := [] }

/-- The method `SetHeader`. -/
def HTTPResponse.SetHeader (r : HTTPResponse) (name value : Bytes) : HTTPResponse :=
  { r with Headers := mapSet r.Headers name value }

/-- The method `SetBody`. -/
def HTTPResponse.SetBody (r : HTTPResponse) (body : Bytes) : HTTPResponse :=
  { r with Body := body }.SetHeader (bytes "Content-Length")
    (formatInt (body.length : Int))

/-- The text `fmt.Sprintf("%s: %s\r\n", name, value)` of one header. -/
def headerLine (kv : Bytes × Bytes) : Bytes :=
  kv.1 ++ bytes ": " ++ kv.2 ++ CRLF

/-- The method `ToBytes`; `builder` is the `strings.Builder`, and the headers
are written in the order of `r.Headers`. -/
def HTTPResponse.ToBytes (r : HTTPResponse) : Bytes :=
  let builder : Bytes := []
  let builder :=
    builder ++ (bytes "HTTP/1.1 " ++ formatInt r.StatusCode ++ bytes " " ++
      r.StatusText ++ CRLF)
  let builder := r.Headers.foldl (fun builder kv => builder ++ headerLine kv) builder
  let builder := builder ++ CRLF
  let result := builder
  result ++ r.Body

/-- The function `Response200`. -/
def Response200 : HTTPResponse := NewResponse 200 (bytes "OK")

/-- The function `Response404`. -/
def Response404 : HTTPResponse := NewResponse 404 (bytes "Not Found")

/-- The function `Response201`. -/
def Response201 : HTTPResponse := NewResponse 201 (bytes "Created")

/-- The function `Response500`. -/
def Response500 : HTTPResponse := NewResponse 500 (bytes "Internal Server Error")

/-! ## `compression.go` and `handler.go` -/

/-- What the code takes from outside: Unicode case folding, gzip, path
arithmetic and the file system, whose states are the values of `σ`.
`ReadFile`, `MkdirAll` and `WriteFile` stand for the functions of package
`os`; `none` or `false` is a non-nil error, and a call that changes the file
system returns its new state. -/
structure Platform (σ : Type) where
  foldUnicode : Bytes → Bytes → Bool
  gzip : Bytes → Option Bytes
  Join : Bytes → Bytes → Bytes
  Dir : Bytes → Bytes
  ReadFile : σ → Bytes → Option Bytes
  MkdirAll : σ → Bytes → Bool × σ
  WriteFile : σ → Bytes → Bytes → Bool × σ

/-- The function `CompressGzip`: the buffer after `Write` and `Close`, `none`
when either reports an error. -/
def CompressGzip {σ : Type} (P : Platform σ) (data : Bytes) : Option Bytes :=
  P.gzip data

/-- The function `SupportsGzip`. -/
def SupportsGzip : List Bytes → Bool
  | [] => false
  | scheme :: schemes => if scheme = bytes "gzip" then true else SupportsGzip schemes

/-- The type `Config`. -/
structure Config where
  Directory : Bytes
  deriving DecidableEq, Repr

/-- `strings.HasPrefix`. -/
def HasPrefix (s pre : Bytes) : Bool := pre.isPrefixOf s

/-- `strings.TrimPrefix`. -/
def TrimPrefix (s pre : Bytes) : Bytes :=
  if HasPrefix s pre then s.drop pre.length else s

/-- The function `handleFileGet`. -/
def handleFileGet {σ : Type} (P : Platform σ) (fs : σ) (filename : Bytes)
    (config : Config) : HTTPResponse :=
  if config.Directory = [] then Response404
  else
    let filePath := P.Join config.Directory filename
    match P.ReadFile fs filePath with
    | none => Response404
    | some contents =>
      let resp := Response200
      let resp := resp.SetHeader (bytes "Content-Type") (bytes "application/octet-stream")
      resp.SetBody contents

/-- The function `handleFilePost`: the response and the file system after
the call. -/
def handleFilePost {σ : Type} (P : Platform σ) (fs : σ) (filename : Bytes)
    (req : HTTPRequest) (config : Config) : HTTPResponse × σ :=
  if config.Directory = [] then (Response500, fs)
  else
    let filePath := P.Join config.Directory filename
    let dir := P.Dir filePath
    match P.MkdirAll fs dir with
    | (false, fs) => (Response500, fs)
    | (true, fs) =>
      match P.WriteFile fs filePath req.Body with
      | (false, fs) => (Response500, fs)
      | (true, fs) => (Response201, fs)

/-- The function `HandleRequest`: the response and the file system after the
call. -/
def HandleRequest {σ : Type} (P : Platform σ) (fs : σ) (req : HTTPRequest)
    (config : Config) : HTTPResponse × σ :=
  let path := req.Path
  if path = bytes "/" then (Response200, fs)
  else if HasPrefix path (bytes "/echo/") then
    let message := TrimPrefix path (bytes "/echo/")
    let resp := Response200
    let resp := resp.SetHeader (bytes "Content-Type") (bytes "text/plain")
    let schemes := req.ParseAcceptEncoding P.foldUnicode
    if SupportsGzip schemes then
      match CompressGzip P message with
      | some compressed =>
        let resp := resp.SetBody compressed
        (resp.SetHeader (bytes "Content-Encoding") (bytes "gzip"), fs)
      | none => (resp.SetBody message, fs)
    else (resp.SetBody message, fs)
  else if path = bytes "/user-agent" then
    let userAgent := req.GetHeader P.foldUnicode (bytes "User-Agent")
    let resp := Response200
    let resp := resp.SetHeader (bytes "Content-Type") (bytes "text/plain")
    (resp.SetBody userAgent, fs)
  else if HasPrefix path (bytes "/files/") then
    let filename := TrimPrefix path (bytes "/files/")
    if req.Method = bytes "GET" then (handleFileGet P fs filename config, fs)
    else if req.Method = bytes "POST" then handleFilePost P fs filename req config
    else (Response404, fs)
  else (Response404, fs)

/-- A platform with ASCII-only case folding, an identity "compressor" and a
file system that is a map from paths to contents; used to run the code on
concrete requests. -/
def simplePlatform : Platform GoMap where
  foldUnicode := fun s t => decide (s = t)
  gzip := fun data => some data
  Join := fun dir name => dir ++ bytes "/" ++ name
  Dir := fun path => path
  ReadFile := fun fs path => mapGet fs path
  MkdirAll := fun fs _ => (true, fs)
  WriteFile := fun fs path data => (true, mapSet fs path data)

/-! ## `main.go` -/

/-- The orders in which the `range` statements of one run visit their maps:
`visit k m` is the order in which the `k`-th of them visits the map `m`, some
permutation of its entries. -/
structure RangeOrder where
  visit : Nat → GoMap → GoMap
  perm : ∀ k m, (visit k m).Perm m

/-- The orders of the range statements that come after the first `k`. -/
def RangeOrder.after (order : RangeOrder) (k : Nat) : RangeOrder where
  visit := fun n m => order.visit (n + k) m
  perm := fun n m => order.perm (n + k) m

/-- Every map is visited in the order in which its entries are listed. -/
def listedOrder : RangeOrder where
  visit := fun _ m => m
  perm := fun _ m => List.Perm.refl m

/-- Every map is visited in the reverse of the order in which its entries are
listed. -/
def reversedOrder : RangeOrder where
  visit := fun _ m => m.reverse
  perm := fun _ m => List.reverse_perm m

/-- The request with its header map in the order `it` in which a range
statement visits it. -/
def HTTPRequest.inOrder (req : HTTPRequest) (it : GoMap) : HTTPRequest :=
  { req with Headers := it }

/-- The response with its header map in the order `it` in which a range
statement visits it. -/
def HTTPResponse.inOrder (resp : HTTPResponse) (it : GoMap) : HTTPResponse :=
  { resp with Headers := it }

/-- The loop of `handleConnection` on one connection: the responses written
to it, in order, and the file system when the connection is closed.
`reader` is what is still to arrive on the connection and `writes` the number
of calls of `conn.Write` that succeed (the call after them returns an error).
A pass has three range statements over a map, in `GetHeader` inside
`HandleRequest`, in `GetHeader` for `Connection`, and in `ToBytes`; `order`
gives the order of each, and the next pass goes on with the orders after
these three.  Every pass that goes on reads at least one byte, so `fuel`
above the length of the stream is never used up. -/
def serve {σ : Type} (P : Platform σ) (config : Config) :
    Nat → RangeOrder → Nat → σ → Bytes → List Bytes × σ
  | 0, _, _, fs, _ => ([], fs)
  | fuel + 1, order, writes, fs, reader =>
    match ParseRequest reader with
    | .error _ => ([], fs)
    | .ok (req, reader) =>
      let (resp, fs) := HandleRequest P fs (req.inOrder (order.visit 0 req.Headers)) config
      let connectionHeader :=
        (req.inOrder (order.visit 1 req.Headers)).GetHeader P.foldUnicode (bytes "Connection")
      let keepAlive := !EqualFold P.foldUnicode connectionHeader (bytes "close")
      let sent := (resp.inOrder (order.visit 2 resp.Headers)).ToBytes
      match writes with
      | 0 => ([], fs)
      | writes + 1 =>
        if !keepAlive then ([sent], fs)
        else
          let (written, fs) := serve P config fuel (order.after 3) writes fs reader
          (sent :: written, fs)

/-- The function `handleConnection`. -/
def handleConnection {σ : Type} (P : Platform σ) (config : Config) (order : RangeOrder)
    (writes : Nat) (fs : σ) (conn : Bytes) : List Bytes × σ :=
  serve P config (conn.length + 1) order writes fs conn

/-! ## Vocabulary of the statements -/

/-- No white-space rune starts anywhere in `t`. -/
def noSpace : Bytes → Bool
  | [] => true
  | b :: t => spaceWidth (b :: t) = 0 && noSpace t

/-- A non-empty token without white space. -/
def Token (t : Bytes) : Prop := t ≠ [] ∧ noSpace t = true

/-- The request line of `method`, `path` and `version`: the three joined by
single spaces, then CRLF. -/
def requestLine (method path version : Bytes) : Bytes :=
  method ++ [32] ++ path ++ [32] ++ version ++ CRLF

/-- The lines `ls`, each followed by CRLF. -/
def joinLines : List Bytes → Bytes
  | [] => []
  | l :: ls => l ++ CRLF ++ joinLines ls

/-- A line of a header block, without its CRLF: it holds no line feed and is
not blank. -/
def HeaderLine (l : Bytes) : Prop := 10 ∉ l ∧ TrimSpace (l ++ CRLF) ≠ []

/-- The map the header loop builds from the lines `ls`, starting from
`headers`. -/
def storeLines (headers : GoMap) (ls : List Bytes) : GoMap :=
  ls.foldl (fun hs l => storeHeader hs (TrimSpace (l ++ CRLF))) headers

/-- Split at the first blank line: what stands before the first CRLF CRLF,
and what stands after it. -/
def splitAtBlankLine : Bytes → Option (Bytes × Bytes)
  | [] => none
  | b :: s =>
    if [13, 10, 13, 10].isPrefixOf (b :: s) then some ([], s.drop 3)
    else (splitAtBlankLine s).map fun ht => (b :: ht.1, ht.2)

/-- No carriage return in the status text, nor in a header name or value. -/
def HTTPResponse.NoCR (r : HTTPResponse) : Prop :=
  13 ∉ r.StatusText ∧ ∀ kv ∈ r.Headers, 13 ∉ kv.1 ∧ 13 ∉ kv.2

/-- The `Content-Length` entry, if there is one, is a decimal number equal to
the length of the body; without one the body is empty. -/
def HTTPResponse.LengthAgrees (r : HTTPResponse) : Prop :=
  match mapGet r.Headers (bytes "Content-Length") with
  | some v => decimalValue v = some r.Body.length
  | none => r.Body.length = 0

/-- The body is the one a header map declares: as many bytes as the number
under `Content-Length` says (none for a number below one), and none without
that entry. -/
def DeclaredBody (headers : GoMap) (body : Bytes) : Prop :=
  match mapGet headers (bytes "Content-Length") with
  | none => body = []
  | some c =>
    match Atoi c with
    | none => False
    | some n => body.length = n.toNat

instance (headers : GoMap) (body : Bytes) : Decidable (DeclaredBody headers body) := by
  unfold DeclaredBody
  split
  · infer_instance
  · split <;> infer_instance

/-- The body a header map declares is there: a `Content-Length` entry, if
any, holds a number, and at least that many bytes follow. -/
def BodyPresent (headers : GoMap) (tail : Bytes) : Prop :=
  match mapGet headers (bytes "Content-Length") with
  | none => True
  | some c =>
    match Atoi c with
    | none => False
    | some n => n ≤ (tail.length : Int)

instance (t : Bytes) : Decidable (Token t) := by
  unfold Token; infer_instance

instance (l : Bytes) : Decidable (HeaderLine l) := by
  unfold HeaderLine; infer_instance

instance (headers : GoMap) (tail : Bytes) : Decidable (BodyPresent headers tail) := by
  unfold BodyPresent
  split
  · infer_instance
  · split <;> infer_instance

/-! ## Lemmas on the library routines -/

theorem spaceWidth_le (s : Bytes) : spaceWidth s ≤ s.length := by
  match s with
  | [] => simp [spaceWidth]
  | [_] => simp only [spaceWidth]; split <;> simp
  | [_, _] => simp only [spaceWidth]; split_ifs <;> simp
  | _ :: _ :: _ :: _ => simp only [spaceWidth]; split_ifs <;> simp

theorem spaceWidthBack_le (s : Bytes) : spaceWidthBack s ≤ s.length := by
  match s with
  | [] => simp [spaceWidthBack]
  | [_] => simp only [spaceWidthBack]; split <;> simp
  | [_, _] => simp only [spaceWidthBack]; split_ifs <;> simp
  | _ :: _ :: _ :: _ => simp only [spaceWidthBack]; split_ifs <;> simp

theorem dropSpaces_of_zero (width : Bytes → Nat) (n : Nat) (s : Bytes)
    (h : width s = 0) : dropSpaces width n s = s := by
  cases n <;> simp [dropSpaces, h]

theorem space2_right (x c : Nat) (hc : c < 128) : space2 x c = false := by
  simp [space2]; intros; omega

theorem space2_left (c y : Nat) (hc : c < 128) : space2 c y = false := by
  simp [space2]; intros; omega

theorem space3_first (c y z : Nat) (hc : c < 128) : space3 c y z = false := by
  simp [space3]; omega

theorem space3_mid (x c z : Nat) (hc : c < 128) : space3 x c z = false := by
  simp [space3]; omega

theorem space3_last (x y c : Nat) (hc : c < 128) : space3 x y c = false := by
  simp [space3]; omega

theorem spaceWidth_append_ascii (a rest : Bytes) (c : Nat) (hc : c < 128)
    (ha : a ≠ []) : spaceWidth (a ++ c :: rest) = spaceWidth a := by
  match a, ha with
  | [x], _ =>
    cases rest <;> simp [spaceWidth, space2_right _ _ hc, space3_mid _ _ _ hc]
  | [x, y], _ => simp [spaceWidth, space3_last _ _ _ hc]
  | _ :: _ :: _ :: _, _ => simp [spaceWidth]

theorem spaceWidthBack_append_ascii (a rest : Bytes) (c : Nat) (hc : c < 128)
    (ha : a ≠ []) : spaceWidthBack (a ++ c :: rest) = spaceWidthBack a := by
  match a, ha with
  | [x], _ =>
    cases rest <;> simp [spaceWidthBack, space2_left _ _ hc, space3_mid _ _ _ hc]
  | [x, y], _ => simp [spaceWidthBack, space3_first _ _ _ hc]
  | _ :: _ :: _ :: _, _ => simp [spaceWidthBack]

theorem spaceWidth_cons_ascii (c : Nat) (rest : Bytes) (hc : c < 128) :
    spaceWidth (c :: rest) = if asciiSpace c then 1 else 0 := by
  match rest with
  | [] => simp [spaceWidth]
  | [_] => simp [spaceWidth, space2_left _ _ hc]
  | _ :: _ :: _ => simp [spaceWidth, space2_left _ _ hc, space3_first _ _ _ hc]

theorem spaceWidthBack_cons_ascii (c : Nat) (rest : Bytes) (hc : c < 128) :
    spaceWidthBack (c :: rest) = if asciiSpace c then 1 else 0 := by
  match rest with
  | [] => simp [spaceWidthBack]
  | [_] => simp [spaceWidthBack, space2_right _ _ hc]
  | _ :: _ :: _ => simp [spaceWidthBack, space2_right _ _ hc, space3_last _ _ _ hc]

theorem noSpace_append_right (a b : Bytes) (h : noSpace (a ++ b) = true) :
    noSpace b = true := by
  induction a with
  | nil => simpa using h
  | cons x a ih =>
    simp only [List.cons_append, noSpace, Bool.and_eq_true] at h
    exact ih h.2

theorem noSpace_head (t : Bytes) (h : noSpace t = true) : spaceWidth t = 0 := by
  cases t with
  | nil => rfl
  | cons b t => simp only [noSpace, Bool.and_eq_true, decide_eq_true_eq] at h; exact h.1

theorem noSpace_mem (t : Bytes) (h : noSpace t = true) :
    ∀ b ∈ t, asciiSpace b = false := by
  induction t with
  | nil => simp
  | cons x t ih =>
    intro b hb
    simp only [noSpace, Bool.and_eq_true, decide_eq_true_eq] at h
    rcases List.mem_cons.1 hb with rfl | hb
    · have h1 := h.1
      by_contra hx
      have hx' : asciiSpace b = true := by simpa using hx
      match t with
      | [] => simp [spaceWidth, hx'] at h1
      | [_] => simp [spaceWidth, hx'] at h1
      | _ :: _ :: _ => simp [spaceWidth, hx'] at h1
    · exact ih h.2 b hb

theorem noSpace_back (v : Bytes) (h : noSpace v = true) :
    spaceWidthBack v.reverse = 0 := by
  generalize hr : v.reverse = r
  have hv : v = r.reverse := by rw [← hr, List.reverse_reverse]
  subst hv
  match r with
  | [] => rfl
  | [a] =>
    have := noSpace_head _ h
    simpa [spaceWidth, spaceWidthBack] using this
  | [a, b] =>
    have h1 := noSpace_head _ h
    have h2 := noSpace_head _ (noSpace_append_right [b] [a] h)
    simp only [spaceWidth] at h1 h2
    simp only [spaceWidthBack]
    by_cases e1 : asciiSpace a = true <;> by_cases e2 : asciiSpace b = true <;>
      by_cases e3 : space2 b a = true <;> simp_all
  | a :: b :: c :: r =>
    have h' : noSpace ([c, b, a]) = true := by
      apply noSpace_append_right r.reverse
      simpa using h
    have h1 := noSpace_head _ h'
    have h2 := noSpace_head _ (noSpace_append_right [c] [b, a] h')
    have h3 := noSpace_head _ (noSpace_append_right [c, b] [a] h')
    simp only [spaceWidth] at h1 h2 h3
    simp only [spaceWidthBack]
    by_cases e1 : asciiSpace a = true <;> by_cases e2 : asciiSpace b = true <;>
      by_cases e3 : space2 b a = true <;> by_cases e4 : asciiSpace c = true <;>
      by_cases e5 : space2 c b = true <;> by_cases e6 : space3 c b a = true <;> simp_all

theorem Split_ne_nil (sep : Nat) (s : Bytes) : Split sep s ≠ [] := by
  induction s with
  | nil => simp [Split]
  | cons b rest ih =>
    simp only [Split]
    split_ifs
    · simp
    · split <;> simp

theorem Split_no_sep (sep : Nat) (a : Bytes) (h : sep ∉ a) : Split sep a = [a] := by
  induction a with
  | nil => rfl
  | cons b rest ih =>
    have hb : b ≠ sep := fun e => h (by simp [e])
    have hr : sep ∉ rest := fun e => h (List.mem_cons_of_mem _ e)
    simp [Split, hb, ih hr]

theorem Split_append_sep (sep : Nat) (a rest : Bytes) (h : sep ∉ a) :
    Split sep (a ++ sep :: rest) = a :: Split sep rest := by
  induction a with
  | nil => simp [Split]
  | cons b a ih =>
    have hb : b ≠ sep := fun e => h (by simp [e])
    have hr : sep ∉ a := fun e => h (List.mem_cons_of_mem _ e)
    simp [Split, hb, ih hr]

theorem ReadString_append (delim : Nat) (l rest : Bytes) (h : delim ∉ l) :
    ReadString delim (l ++ delim :: rest) = some (l ++ [delim], rest) := by
  induction l with
  | nil => simp [ReadString]
  | cons b l ih =>
    have hb : b ≠ delim := fun e => h (by simp [e])
    have hr : delim ∉ l := fun e => h (List.mem_cons_of_mem _ e)
    simp [ReadString, hb, ih hr]

theorem TrimLeft_of_zero (s : Bytes) (h : spaceWidth s = 0) : TrimLeft s = s :=
  dropSpaces_of_zero _ _ _ h

/-- Trailing CR LF is trimmed, and nothing else when what stands before it
does not end in white space. -/
theorem TrimRight_crlf (s : Bytes) (h : spaceWidthBack s.reverse = 0) :
    TrimRight (s ++ CRLF) = s := by
  have h10 : spaceWidthBack (10 :: 13 :: s.reverse) = 1 := by
    rw [spaceWidthBack_cons_ascii _ _ (by omega)]; rfl
  have h13 : spaceWidthBack (13 :: s.reverse) = 1 := by
    rw [spaceWidthBack_cons_ascii _ _ (by omega)]; rfl
  simp [TrimRight, CRLF, dropSpaces, h10, h13, dropSpaces_of_zero _ _ _ h]

theorem noSpace_not_mem (t : Bytes) (h : noSpace t = true) (c : Nat)
    (hc : asciiSpace c = true) : c ∉ t := by
  intro hm
  have := noSpace_mem t h c hm
  simp [this] at hc

/-- The request line of three tokens, trimmed, is the three tokens joined by
single spaces. -/
theorem TrimSpace_request_line (m p v : Bytes) (hm : Token m) (hv : Token v) :
    TrimSpace (m ++ 32 :: (p ++ 32 :: (v ++ CRLF))) = m ++ 32 :: (p ++ 32 :: v) := by
  have hl : spaceWidth (m ++ 32 :: (p ++ 32 :: (v ++ CRLF))) = 0 := by
    rw [spaceWidth_append_ascii _ _ _ (by omega) hm.1]; exact noSpace_head _ hm.2
  have hb : spaceWidthBack (m ++ 32 :: (p ++ 32 :: v)).reverse = 0 := by
    have : (m ++ 32 :: (p ++ 32 :: v)).reverse = v.reverse ++ 32 :: (p.reverse ++ 32 :: m.reverse) := by
      simp
    rw [this, spaceWidthBack_append_ascii _ _ _ (by omega) (by simpa using hv.1)]
    exact noSpace_back _ hv.2
  have e : m ++ 32 :: (p ++ 32 :: (v ++ CRLF)) = (m ++ 32 :: (p ++ 32 :: v)) ++ CRLF := by simp
  rw [TrimSpace, TrimLeft_of_zero _ hl, e, TrimRight_crlf _ hb]

theorem Split_request_line (m p v : Bytes) (hm : Token m) (hp : Token p) (hv : Token v) :
    Split 32 (m ++ 32 :: (p ++ 32 :: v)) = [m, p, v] := by
  rw [Split_append_sep _ _ _ (noSpace_not_mem _ hm.2 32 rfl),
    Split_append_sep _ _ _ (noSpace_not_mem _ hp.2 32 rfl),
    Split_no_sep _ _ (noSpace_not_mem _ hv.2 32 rfl)]

theorem joinLines_length (ls : List Bytes) : 2 * ls.length ≤ (joinLines ls).length := by
  induction ls with
  | nil => simp [joinLines]
  | cons l ls ih => simp [joinLines, CRLF]; omega

theorem storeLines_cons (hs : GoMap) (l : Bytes) (ls : List Bytes) :
    storeLines hs (l :: ls) = storeLines (storeHeader hs (TrimSpace (l ++ CRLF))) ls := rfl

/-- The header loop on a block of header lines and a blank line: it stores
the lines in order and stops after the blank line. -/
theorem parseHeaders_lines (ls : List Bytes) :
    ∀ (fuel : Nat) (hs : GoMap) (rest : Bytes), (∀ l ∈ ls, HeaderLine l) →
      ls.length < fuel →
      parseHeaders fuel hs (joinLines ls ++ CRLF ++ rest) = .ok (storeLines hs ls, rest) := by
  induction ls with
  | nil =>
    intro fuel hs rest _ hf
    obtain ⟨fuel, rfl⟩ : ∃ k, fuel = k + 1 := ⟨fuel - 1, by omega⟩
    have hr : ReadString 10 (13 :: 10 :: rest) = some ([13, 10], rest) :=
      ReadString_append 10 [13] rest (by simp)
    have ht : TrimSpace [13, 10] = [] := by decide
    simp [joinLines, CRLF, parseHeaders, hr, ht, storeLines]
  | cons l ls ih =>
    intro fuel hs rest hl hf
    obtain ⟨fuel, rfl⟩ : ∃ k, fuel = k + 1 := ⟨fuel - 1, by omega⟩
    have hl0 : HeaderLine l := hl l (by simp)
    have hr : ReadString 10 (l ++ 13 :: 10 :: (joinLines ls ++ CRLF ++ rest)) =
        some (l ++ CRLF, joinLines ls ++ CRLF ++ rest) := by
      have := ReadString_append 10 (l ++ [13]) (joinLines ls ++ CRLF ++ rest)
        (by simpa using hl0.1)
      simpa [CRLF] using this
    have e : joinLines (l :: ls) ++ CRLF ++ rest =
        l ++ 13 :: 10 :: (joinLines ls ++ CRLF ++ rest) := by
      simp [joinLines, CRLF]
    rw [e, parseHeaders, hr]
    simp only [hl0.2, if_false]
    rw [ih fuel _ rest (fun x hx => hl x (List.mem_cons_of_mem _ hx)) (by simpa using hf),
      storeLines_cons]

/-- The parse of a request line of three tokens, a header block and a blank
line: all that can still fail is the body stage. -/
theorem ParseRequest_wellformed (m p v : Bytes) (ls : List Bytes) (tail : Bytes)
    (hm : Token m) (hp : Token p) (hv : Token v) (hls : ∀ l ∈ ls, HeaderLine l) :
    ParseRequest (requestLine m p v ++ joinLines ls ++ CRLF ++ tail) =
      match readBody (storeLines [] ls) tail with
      | .error e => .error e
      | .ok (body, rest) =>
        .ok ({ Method := m, Path := p, Version := v, Headers := storeLines [] ls,
               Body := body }, rest) := by
  have hr : ReadString 10 (requestLine m p v ++ joinLines ls ++ CRLF ++ tail) =
      some (m ++ 32 :: (p ++ 32 :: (v ++ CRLF)), joinLines ls ++ CRLF ++ tail) := by
    have h10 : 10 ∉ m ++ 32 :: (p ++ 32 :: (v ++ [13])) := by
      have h1 := noSpace_not_mem _ hm.2 10 rfl
      have h2 := noSpace_not_mem _ hp.2 10 rfl
      have h3 := noSpace_not_mem _ hv.2 10 rfl
      simp [h1, h2, h3]
    have := ReadString_append 10 _ (joinLines ls ++ CRLF ++ tail) h10
    simpa [requestLine, CRLF] using this
  have hf : ls.length < (joinLines ls ++ CRLF ++ tail).length + 1 := by
    have := joinLines_length ls
    simp only [List.length_append]; omega
  rw [ParseRequest, hr]
  simp only [TrimSpace_request_line m p v hm hv, Split_request_line m p v hm hp hv,
    parseHeaders_lines ls _ [] tail hls hf]

/-- The body stage succeeds when the declared body is present, and splits the
stream into the body and the unread rest. -/
theorem readBody_present (hs : GoMap) (tail : Bytes) (h : BodyPresent hs tail) :
    ∃ body rest, readBody hs tail = .ok (body, rest) ∧ body ++ rest = tail := by
  unfold BodyPresent at h
  unfold readBody
  cases hc : mapGet hs (bytes "Content-Length") with
  | none => exact ⟨[], tail, rfl, rfl⟩
  | some c =>
    rw [hc] at h
    cases hn : Atoi c with
    | none => simp [hn] at h
    | some n =>
      simp only [hn] at h ⊢
      by_cases hpos : n > 0
      · have hle : n.toNat ≤ tail.length := by omega
        refine ⟨tail.take n.toNat, tail.drop n.toNat, ?_, List.take_append_drop _ _⟩
        simp [hpos, ReadFull, hle]
      · exact ⟨[], tail, by simp [hpos], rfl⟩

/-- C1: a request line of three non-empty tokens without white space, joined
by single spaces and ended by CRLF, followed by a block of header lines, a
blank line and the body the headers declare, parses, and the request has
exactly those three strings as `Method`, `Path` and `Version`. -/
theorem ParseRequest_request_line (m p v : Bytes) (ls : List Bytes) (tail : Bytes)
    (hm : Token m) (hp : Token p) (hv : Token v) (hls : ∀ l ∈ ls, HeaderLine l)
    (hb : BodyPresent (storeLines [] ls) tail) :
    ∃ req rest,
      ParseRequest (requestLine m p v ++ joinLines ls ++ CRLF ++ tail) = .ok (req, rest) ∧
      req.Method = m ∧ req.Path = p ∧ req.Version = v := by
  obtain ⟨body, rest, hbody, _⟩ := readBody_present _ _ hb
  refine ⟨{ Method := m, Path := p, Version := v, Headers := storeLines [] ls,
            Body := body }, rest, ?_, rfl, rfl, rfl⟩
  rw [ParseRequest_wellformed m p v ls tail hm hp hv hls, hbody]

/-- C1, at `POST /files/a HTTP/1.1` with a `Host` and a `Content-Length`
header and a body of five bytes. -/
theorem ParseRequest_request_line_witness :
    Token (bytes "POST") ∧ Token (bytes "/files/a") ∧ Token (bytes "HTTP/1.1") ∧
    (∀ l ∈ [bytes "Host: localhost:4221", bytes "Content-Length: 5"], HeaderLine l) ∧
    BodyPresent (storeLines [] [bytes "Host: localhost:4221", bytes "Content-Length: 5"])
      (bytes "hello") ∧
    ∃ req rest,
      ParseRequest (requestLine (bytes "POST") (bytes "/files/a") (bytes "HTTP/1.1") ++
        joinLines [bytes "Host: localhost:4221", bytes "Content-Length: 5"] ++ CRLF ++
        bytes "hello") = .ok (req, rest) ∧
      req.Method = bytes "POST" ∧ req.Path = bytes "/files/a" ∧
      req.Version = bytes "HTTP/1.1" :=
  ⟨by decide, by decide, by decide, by decide, by decide,
    ParseRequest_request_line _ _ _ _ _ (by decide) (by decide) (by decide) (by decide)
      (by decide)⟩

/-- C2: a request that spells its header `content-length` and carries five
body bytes parses with an empty `Body`, although `GetHeader` finds the
header under the name `Content-Length`; the five bytes stay unread. -/
theorem ParseRequest_lowercase_content_length (foldUnicode : Bytes → Bytes → Bool) :
    ∃ req,
      ParseRequest (bytes "POST /files/a HTTP/1.1\r\ncontent-length: 5\r\n\r\nhello") =
        .ok (req, bytes "hello") ∧
      req.GetHeader foldUnicode (bytes "Content-Length") = bytes "5" ∧
      req.Body = [] :=
  ⟨_, rfl, rfl, rfl⟩

/-- C3: a request whose `Content-Length` header has the value `-5` parses
without an error, with an empty body. -/
theorem ParseRequest_negative_content_length :
    ParseRequest (bytes "POST /files/a HTTP/1.1\r\nContent-Length: -5\r\n\r\n") =
      .ok ({ Method := bytes "POST", Path := bytes "/files/a", Version := bytes "HTTP/1.1",
             Headers := [(bytes "Content-Length", bytes "-5")], Body := [] }, []) :=
  rfl

theorem Split_length (sep : Nat) (s : Bytes) :
    (Split sep s).length = s.count sep + 1 := by
  induction s with
  | nil => rfl
  | cons b rest ih =>
    by_cases hb : b = sep
    · subst hb; simp [Split, ih]
    · have hne : Split sep rest ≠ [] := Split_ne_nil sep rest
      have hb' : ¬ (b == sep) = true := by simpa using hb
      cases hs : Split sep rest with
      | nil => exact absurd hs hne
      | cons part parts =>
        rw [hs] at ih
        simp [Split, hb, hs, List.count_cons, hb'] at ih ⊢
        exact ih

theorem parseHeaders_error (fuel : Nat) :
    ∀ (hs : GoMap) (s : Bytes) (e : ParseError),
      parseHeaders fuel hs s = .error e → e = .readHeader := by
  induction fuel with
  | zero => intro hs s e h; simp [parseHeaders] at h; exact h.symm
  | succ n ih =>
    intro hs s e h
    simp only [parseHeaders] at h
    cases hr : ReadString 10 s with
    | none => simp [hr] at h; exact h.symm
    | some lr =>
      obtain ⟨line, rest⟩ := lr
      simp only [hr] at h
      split_ifs at h
      exact ih _ _ _ h

theorem readBody_error (hs : GoMap) (s : Bytes) (e : ParseError)
    (h : readBody hs s = .error e) : e = .invalidContentLength ∨ e = .readBody := by
  unfold readBody at h
  split at h
  · simp at h
  · split at h
    · simp at h; exact Or.inl h.symm
    · split_ifs at h
      · split at h
        · simp at h; exact Or.inr h.symm
        · simp at h

/-- C4, as amended: `ParseRequest` returns its request-line error exactly
when the request line, white space trimmed from both ends, does not hold
exactly two space characters, that is, when splitting it at every space does
not give three parts. -/
theorem ParseRequest_invalid_request_line (raw rest : Bytes) (h : 10 ∉ raw) :
    (∃ line, ParseRequest (raw ++ 10 :: rest) = .error (.invalidRequestLine line)) ↔
      (TrimSpace (raw ++ [10])).count 32 ≠ 2 := by
  have hlen := Split_length 32 (TrimSpace (raw ++ [10]))
  rw [ParseRequest, ReadString_append 10 raw rest h]
  constructor
  · rintro ⟨line, hl⟩ hc
    rw [hc] at hlen
    match hs : Split 32 (TrimSpace (raw ++ [10])), hlen with
    | [a, b, c], _ =>
      simp only [hs] at hl
      cases hp : parseHeaders (rest.length + 1) [] rest with
      | error e =>
        have := parseHeaders_error _ _ _ _ hp
        simp [hp, this] at hl
      | ok r =>
        obtain ⟨headers, reader⟩ := r
        simp only [hp] at hl
        cases hb : readBody headers reader with
        | error e =>
          have := readBody_error _ _ _ hb
          simp only [hb] at hl
          rcases this with rfl | rfl <;> simp at hl
        | ok r => simp [hb] at hl
  · intro hc
    refine ⟨TrimSpace (raw ++ [10]), ?_⟩
    match hs : Split 32 (TrimSpace (raw ++ [10])), hlen with
    | [a, b, c], hl => simp at hl; omega
    | [], _ => simp only [hs]
    | [_], _ => simp only [hs]
    | [_, _], _ => simp only [hs]
    | _ :: _ :: _ :: _ :: _, _ => simp only [hs]

/-- C4, as amended, at the request line `GET  / HTTP/1.1` with two spaces
after the method. -/
theorem ParseRequest_invalid_request_line_witness :
    10 ∉ bytes "GET  / HTTP/1.1\r" ∧
    ((∃ line, ParseRequest (bytes "GET  / HTTP/1.1\r" ++ 10 :: CRLF) =
        .error (.invalidRequestLine line)) ↔
      (TrimSpace (bytes "GET  / HTTP/1.1\r" ++ [10])).count 32 ≠ 2) :=
  ⟨by decide, ParseRequest_invalid_request_line _ _ (by decide)⟩

/-- C4, as stated, fails: in `GET \t/ HTTP/1.1` a space and a tab stand
between the method and the path, and the request parses; the tab becomes part
of the path. -/
theorem ParseRequest_accepts_space_tab :
    ParseRequest (bytes "GET \t/ HTTP/1.1\r\n\r\n") =
      .ok ({ Method := bytes "GET", Path := bytes "\t/", Version := bytes "HTTP/1.1",
             Headers := [], Body := [] }, []) :=
  rfl

/-- C7: the request with the header lines `Host: a` and `host: b` parses to
a map with both entries, and `GetHeader` of `host`, visiting the map in the
order of the lines, returns `a`, the value of the first line; visiting it in
the other order it returns `b`. -/
theorem GetHeader_not_last_write (foldUnicode : Bytes → Bytes → Bool) :
    ∃ req,
      ParseRequest (bytes "GET / HTTP/1.1\r\nHost: a\r\nhost: b\r\n\r\n") = .ok (req, []) ∧
      req.Headers = [(bytes "Host", bytes "a"), (bytes "host", bytes "b")] ∧
      req.GetHeader foldUnicode (bytes "host") = bytes "a" ∧
      { req with Headers := req.Headers.reverse }.GetHeader foldUnicode (bytes "host") =
        bytes "b" :=
  ⟨_, rfl, rfl, rfl, rfl⟩

theorem mapGet_mapSet_self (m : GoMap) (k v : Bytes) : mapGet (mapSet m k v) k = some v := by
  induction m with
  | nil => simp [mapSet, mapGet]
  | cons e m ih =>
    obtain ⟨k', v'⟩ := e
    by_cases h : k' = k
    · simp [mapSet, mapGet, h]
    · simp [mapSet, mapGet, h, ih]

theorem mapGet_mapSet_other (m : GoMap) (k v k2 : Bytes) (hne : k2 ≠ k) :
    mapGet (mapSet m k v) k2 = mapGet m k2 := by
  induction m with
  | nil => simp [mapSet, mapGet, Ne.symm hne]
  | cons e m ih =>
    obtain ⟨k', v'⟩ := e
    by_cases h : k' = k
    · subst h; simp [mapSet, mapGet, Ne.symm hne]
    · by_cases h2 : k' = k2
      · subst h2; simp [mapSet, mapGet, h]
      · simp [mapSet, mapGet, h, h2, ih]

theorem mapSet_keys_nodup (m : GoMap) (k v : Bytes) (h : (m.map Prod.fst).Nodup) :
    ((mapSet m k v).map Prod.fst).Nodup := by
  induction m with
  | nil => simp [mapSet]
  | cons e m ih =>
    obtain ⟨k', v'⟩ := e
    simp only [List.map_cons, List.nodup_cons] at h
    by_cases hk : k' = k
    · subst hk; simpa [mapSet] using h
    · simp only [mapSet, hk, if_false, List.map_cons, List.nodup_cons]
      refine ⟨?_, ih h.2⟩
      intro hm
      apply h.1
      clear ih h
      induction m with
      | nil => simp [mapSet] at hm; exact absurd hm hk
      | cons e2 m ih2 =>
        obtain ⟨k2, v2⟩ := e2
        by_cases hk2 : k2 = k
        · subst hk2; simpa [mapSet] using hm
        · simp only [mapSet, hk2, if_false, List.map_cons, List.mem_cons] at hm ⊢
          rcases hm with e | hm
          · exact Or.inl e
          · exact Or.inr (ih2 hm)

/-- C8: after `SetBody(b)` the body is `b` and the map holds the decimal
rendering of `len(b)` under `Content-Length`, once; the status and the
entries under every other name are as before. -/
theorem SetBody_frame (r : HTTPResponse) (b : Bytes) :
    (r.SetBody b).Body = b ∧
    mapGet (r.SetBody b).Headers (bytes "Content-Length") = some (formatInt (b.length : Int)) ∧
    (r.SetBody b).StatusCode = r.StatusCode ∧
    (r.SetBody b).StatusText = r.StatusText ∧
    (∀ name, name ≠ bytes "Content-Length" →
      mapGet (r.SetBody b).Headers name = mapGet r.Headers name) ∧
    ((r.Headers.map Prod.fst).Nodup → ((r.SetBody b).Headers.map Prod.fst).Nodup) :=
  ⟨rfl, mapGet_mapSet_self _ _ _, rfl, rfl,
    fun name hne => mapGet_mapSet_other _ _ _ name hne,
    fun h => mapSet_keys_nodup _ _ _ h⟩

theorem foldl_headerLine (hs : GoMap) (b : Bytes) :
    hs.foldl (fun builder kv => builder ++ headerLine kv) b =
      b ++ (hs.map headerLine).flatten := by
  induction hs generalizing b with
  | nil => simp
  | cons kv hs ih => simp [ih]

/-- C10: whatever order `it` the map is visited in, `ToBytes` is the status
line `HTTP/1.1 <code> <reason>` and CRLF, then the line `<name>: <value>` and
CRLF of each entry visited, then CRLF, then the body; the header lines are
those of the response's entries, each once. -/
theorem ToBytes_layout (r : HTTPResponse) (it : GoMap) (hit : it.Perm r.Headers) :
    { r with Headers := it }.ToBytes =
      bytes "HTTP/1.1 " ++ formatInt r.StatusCode ++ bytes " " ++ r.StatusText ++ CRLF ++
        (it.map fun kv => kv.1 ++ bytes ": " ++ kv.2 ++ CRLF).flatten ++ CRLF ++ r.Body ∧
    (it.map fun kv => kv.1 ++ bytes ": " ++ kv.2 ++ CRLF).Perm
      (r.Headers.map fun kv => kv.1 ++ bytes ": " ++ kv.2 ++ CRLF) := by
  refine ⟨?_, hit.map _⟩
  simp only [HTTPResponse.ToBytes, foldl_headerLine, List.nil_append]
  rfl

/-- C10, at a 200 response with two headers and the body `abc`, the map
visited in the reverse of its listed order. -/
theorem ToBytes_layout_witness :
    let r : HTTPResponse :=
      { StatusCode := 200, StatusText := bytes "OK",
        Headers := [(bytes "Content-Type", bytes "text/plain"),
                    (bytes "Content-Length", bytes "3")],
        Body := bytes "abc" }
    r.Headers.reverse.Perm r.Headers ∧
    { r with Headers := r.Headers.reverse }.ToBytes =
      bytes "HTTP/1.1 200 OK\r\nContent-Length: 3\r\nContent-Type: text/plain\r\n\r\nabc" := by
  intro r
  exact ⟨List.reverse_perm _,
    (ToBytes_layout r r.Headers.reverse (List.reverse_perm _)).1.trans (by decide)⟩

theorem formatNatAux_acc (fuel : Nat) :
    ∀ (n : Nat) (acc : Bytes), formatNatAux fuel n acc = formatNatAux fuel n [] ++ acc := by
  induction fuel with
  | zero => intro n acc; simp [formatNatAux]
  | succ f ih =>
    intro n acc
    simp only [formatNatAux]
    split_ifs
    · simp
    · rw [ih (n / 10) ((48 + n % 10) :: acc), ih (n / 10) [48 + n % 10]]; simp

theorem parseDigits_append (s t : Bytes) :
    ∀ acc, parseDigits acc (s ++ t) = (parseDigits acc s).bind fun a => parseDigits a t := by
  induction s with
  | nil => intro acc; simp [parseDigits]
  | cons c s ih =>
    intro acc
    simp only [List.cons_append, parseDigits]
    split_ifs
    · exact ih _
    · rfl

theorem formatNatAux_spec (fuel : Nat) :
    ∀ n, n < fuel →
      formatNatAux fuel n [] ≠ [] ∧
      (∀ b ∈ formatNatAux fuel n [], 48 ≤ b ∧ b ≤ 57) ∧
      parseDigits 0 (formatNatAux fuel n []) = some n := by
  induction fuel with
  | zero => intro n h; omega
  | succ f ih =>
    intro n hn
    simp only [formatNatAux]
    by_cases h10 : n < 10
    · simp only [h10, if_true]
      refine ⟨by simp, ?_, ?_⟩
      · intro b hb; simp at hb; omega
      · have h1 : 48 ≤ 48 + n ∧ 48 + n ≤ 57 := by omega
        simp [parseDigits, h1]
    · simp only [h10, if_false]
      obtain ⟨h1, h2, h3⟩ := ih (n / 10) (by omega)
      rw [formatNatAux_acc]
      refine ⟨by simp, ?_, ?_⟩
      · intro b hb
        rcases List.mem_append.1 hb with hb | hb
        · exact h2 b hb
        · simp at hb; omega
      · have h4 : 48 ≤ 48 + n % 10 ∧ 48 + n % 10 ≤ 57 := by omega
        rw [parseDigits_append, h3]
        simp only [Option.some_bind, parseDigits, h4, and_self, if_true]
        congr 1; omega

/-- Reading back the decimal rendering of a length gives the length. -/
theorem decimalValue_formatInt (n : Nat) : decimalValue (formatInt (n : Int)) = some n := by
  obtain ⟨h1, _, h3⟩ := formatNatAux_spec (n + 1) n (by omega)
  have e : formatInt (n : Int) = formatNat n := by simp [formatInt]
  rw [e, decimalValue, formatNat, if_neg h1, h3]

theorem formatInt_no_cr (i : Int) : 13 ∉ formatInt i := by
  intro h
  unfold formatInt at h
  split_ifs at h
  · rcases List.mem_cons.1 h with h | h
    · omega
    · have := (formatNatAux_spec (i.natAbs + 1) i.natAbs (by omega)).2.1 13 h
      omega
  · have := (formatNatAux_spec (i.toNat + 1) i.toNat (by omega)).2.1 13 h
    omega

theorem splitAtBlankLine_skip (l rest : Bytes) (h : 13 ∉ l) :
    splitAtBlankLine (l ++ rest) =
      (splitAtBlankLine rest).map fun ht => (l ++ ht.1, ht.2) := by
  induction l with
  | nil => simp
  | cons b l ih =>
    have hb : b ≠ 13 := fun e => h (by simp [e])
    have hl : 13 ∉ l := fun e => h (List.mem_cons_of_mem _ e)
    have hp : [13, 10, 13, 10].isPrefixOf (b :: (l ++ rest)) = false := by
      simp [List.isPrefixOf, Ne.symm hb]
    rw [List.cons_append, splitAtBlankLine, hp, ih hl]
    simp [Function.comp_def]

theorem splitAtBlankLine_crlf (x : Nat) (rest : Bytes) (hx : x ≠ 13) :
    splitAtBlankLine (13 :: 10 :: x :: rest) =
      (splitAtBlankLine (x :: rest)).map fun ht => (13 :: 10 :: ht.1, ht.2) := by
  have hp1 : [13, 10, 13, 10].isPrefixOf (13 :: 10 :: x :: rest) = false := by
    simp [List.isPrefixOf, Ne.symm hx]
  have hp2 : [13, 10, 13, 10].isPrefixOf (10 :: x :: rest) = false := by
    simp [List.isPrefixOf]
  rw [splitAtBlankLine, hp1]
  simp only [Bool.false_eq_true, if_false]
  rw [splitAtBlankLine, hp2]
  simp [Function.comp_def]

theorem splitAtBlankLine_blank (body : Bytes) :
    splitAtBlankLine (13 :: 10 :: 13 :: 10 :: body) = some ([], body) := by
  simp [splitAtBlankLine, List.isPrefixOf]

/-- Lines without a carriage return, none of them empty, then a blank line:
the first blank line is the one after the last of the lines. -/
theorem splitAtBlankLine_lines (ls : List Bytes) :
    ∀ (l body : Bytes), (∀ x ∈ l :: ls, 13 ∉ x ∧ x ≠ []) →
      ∃ head, splitAtBlankLine (joinLines (l :: ls) ++ CRLF ++ body) = some (head, body) := by
  induction ls with
  | nil =>
    intro l body h
    have hl := (h l (by simp)).1
    refine ⟨l, ?_⟩
    have e : joinLines [l] ++ CRLF ++ body = l ++ (13 :: 10 :: 13 :: 10 :: body) := by
      simp [joinLines, CRLF]
    rw [e, splitAtBlankLine_skip _ _ hl, splitAtBlankLine_blank]
    simp
  | cons l2 ls ih =>
    intro l body h
    have hl := (h l (by simp)).1
    have hl2 := h l2 (by simp)
    obtain ⟨head, hh⟩ := ih l2 body (fun x hx => h x (List.mem_cons_of_mem _ hx))
    obtain ⟨x, t, rfl⟩ : ∃ x t, l2 = x :: t := by
      cases l2 with
      | nil => exact absurd rfl hl2.2
      | cons x t => exact ⟨x, t, rfl⟩
    have hx : x ≠ 13 := fun e => hl2.1 (by simp [e])
    have e : joinLines (l :: (x :: t) :: ls) ++ CRLF ++ body =
        l ++ (13 :: 10 :: x :: (t ++ CRLF ++ joinLines ls ++ CRLF ++ body)) := by
      simp [joinLines, CRLF]
    have e2 : joinLines ((x :: t) :: ls) ++ CRLF ++ body =
        x :: (t ++ CRLF ++ joinLines ls ++ CRLF ++ body) := by
      simp [joinLines, CRLF]
    rw [e2] at hh
    rw [e, splitAtBlankLine_skip _ _ hl, splitAtBlankLine_crlf _ _ hx, hh]
    exact ⟨_, rfl⟩

theorem ToBytes_eq_joinLines (r : HTTPResponse) :
    r.ToBytes =
      joinLines ((bytes "HTTP/1.1 " ++ formatInt r.StatusCode ++ bytes " " ++ r.StatusText) ::
        r.Headers.map fun kv => kv.1 ++ bytes ": " ++ kv.2) ++ CRLF ++ r.Body := by
  have h : ∀ hs : GoMap, (hs.map headerLine).flatten =
      joinLines (hs.map fun kv => kv.1 ++ bytes ": " ++ kv.2) := by
    intro hs
    induction hs with
    | nil => rfl
    | cons kv hs ih => simp [joinLines, headerLine, ih]
  simp [HTTPResponse.ToBytes, foldl_headerLine, h, joinLines]

/-- A response without carriage returns in its status text and headers
serialises to bytes whose first blank line is the one before the body. -/
theorem splitAtBlankLine_ToBytes (r : HTTPResponse) (h : r.NoCR) :
    ∃ head, splitAtBlankLine r.ToBytes = some (head, r.Body) := by
  rw [ToBytes_eq_joinLines]
  apply splitAtBlankLine_lines
  intro x hx
  rcases List.mem_cons.1 hx with rfl | hx
  · refine ⟨?_, by simp [bytes, encodeRune]⟩
    have := formatInt_no_cr r.StatusCode
    have h1 := h.1
    simp only [List.mem_append, not_or]
    exact ⟨⟨⟨by decide, this⟩, by decide⟩, h1⟩
  · obtain ⟨kv, hkv, rfl⟩ := List.mem_map.1 hx
    have := h.2 kv hkv
    refine ⟨?_, by simp [bytes, encodeRune]⟩
    simp only [List.mem_append, not_or]
    exact ⟨⟨this.1, by decide⟩, this.2⟩

theorem mem_mapSet (m : GoMap) (k v : Bytes) (kv : Bytes × Bytes)
    (h : kv ∈ mapSet m k v) : kv ∈ m ∨ kv = (k, v) := by
  induction m with
  | nil => simp [mapSet] at h; exact Or.inr h
  | cons e m ih =>
    obtain ⟨k', v'⟩ := e
    by_cases hk : k' = k
    · simp only [mapSet, hk, if_true, List.mem_cons] at h
      rcases h with h | h
      · exact Or.inr h
      · exact Or.inl (List.mem_cons_of_mem _ h)
    · simp only [mapSet, hk, if_false, List.mem_cons] at h
      rcases h with h | h
      · exact Or.inl (by simp [h])
      · rcases ih h with h | h
        · exact Or.inl (List.mem_cons_of_mem _ h)
        · exact Or.inr h

theorem NoCR_NewResponse (code : Int) (text : Bytes) (h : 13 ∉ text) :
    (NewResponse code text).NoCR :=
  ⟨h, by simp [NewResponse]⟩

theorem NoCR_SetHeader (r : HTTPResponse) (k v : Bytes) (h : r.NoCR)
    (hk : 13 ∉ k) (hv : 13 ∉ v) : (r.SetHeader k v).NoCR := by
  refine ⟨h.1, ?_⟩
  intro kv hm
  rcases mem_mapSet _ _ _ _ hm with hm | rfl
  · exact h.2 kv hm
  · exact ⟨hk, hv⟩

theorem NoCR_SetBody (r : HTTPResponse) (b : Bytes) (h : r.NoCR) : (r.SetBody b).NoCR := by
  have := NoCR_SetHeader { r with Body := b } (bytes "Content-Length")
    (formatInt (b.length : Int)) h (by decide) (formatInt_no_cr _)
  exact this

theorem LengthAgrees_NewResponse (code : Int) (text : Bytes) :
    (NewResponse code text).LengthAgrees := by
  simp [HTTPResponse.LengthAgrees, NewResponse, mapGet]

theorem LengthAgrees_SetBody (r : HTTPResponse) (b : Bytes) : (r.SetBody b).LengthAgrees := by
  have h : mapGet (r.SetBody b).Headers (bytes "Content-Length") =
      some (formatInt (b.length : Int)) := mapGet_mapSet_self _ _ _
  have hb : (r.SetBody b).Body = b := rfl
  simp only [HTTPResponse.LengthAgrees, h, hb]
  exact decimalValue_formatInt _

theorem LengthAgrees_SetHeader (r : HTTPResponse) (k v : Bytes) (h : r.LengthAgrees)
    (hk : bytes "Content-Length" ≠ k) : (r.SetHeader k v).LengthAgrees := by
  unfold HTTPResponse.LengthAgrees at h ⊢
  have e : mapGet (r.SetHeader k v).Headers (bytes "Content-Length") =
      mapGet r.Headers (bytes "Content-Length") := mapGet_mapSet_other _ _ _ _ hk
  rw [e]
  exact h

/-- Every response of the dispatcher is free of carriage returns outside its
body, and its `Content-Length`, when set, is the length of its body. -/
theorem HandleRequest_invariant {σ : Type} (P : Platform σ) (fs : σ) (req : HTTPRequest)
    (config : Config) :
    (HandleRequest P fs req config).1.NoCR ∧ (HandleRequest P fs req config).1.LengthAgrees := by
  have n200 : Response200.NoCR := NoCR_NewResponse _ _ (by decide)
  have n404 : Response404.NoCR := NoCR_NewResponse _ _ (by decide)
  have n201 : Response201.NoCR := NoCR_NewResponse _ _ (by decide)
  have n500 : Response500.NoCR := NoCR_NewResponse _ _ (by decide)
  have l200 : Response200.LengthAgrees := LengthAgrees_NewResponse _ _
  have l404 : Response404.LengthAgrees := LengthAgrees_NewResponse _ _
  have l201 : Response201.LengthAgrees := LengthAgrees_NewResponse _ _
  have l500 : Response500.LengthAgrees := LengthAgrees_NewResponse _ _
  have ntext : (Response200.SetHeader (bytes "Content-Type") (bytes "text/plain")).NoCR :=
    NoCR_SetHeader _ _ _ n200 (by decide) (by decide)
  unfold HandleRequest
  simp only
  split_ifs
  · exact ⟨n200, l200⟩
  · split
    · exact ⟨NoCR_SetHeader _ _ _ (NoCR_SetBody _ _ ntext) (by decide) (by decide),
        LengthAgrees_SetHeader _ _ _ (LengthAgrees_SetBody _ _) (by decide)⟩
    · exact ⟨NoCR_SetBody _ _ ntext, LengthAgrees_SetBody _ _⟩
  · exact ⟨NoCR_SetBody _ _ ntext, LengthAgrees_SetBody _ _⟩
  · exact ⟨NoCR_SetBody _ _ ntext, LengthAgrees_SetBody _ _⟩
  · unfold handleFileGet
    simp only
    split_ifs
    · exact ⟨n404, l404⟩
    · split
      · exact ⟨n404, l404⟩
      · exact ⟨NoCR_SetBody _ _ (NoCR_SetHeader _ _ _ n200 (by decide) (by decide)),
          LengthAgrees_SetBody _ _⟩
  · unfold handleFilePost
    simp only
    split_ifs
    · exact ⟨n500, l500⟩
    · split
      · exact ⟨n500, l500⟩
      · split
        · exact ⟨n500, l500⟩
        · exact ⟨n201, l201⟩
  · exact ⟨n404, l404⟩
  · exact ⟨n404, l404⟩

/-- C9: for every request, configuration, platform and file system, and
whatever order `it` the response's header map is visited in, the bytes
`ToBytes` gives for the response of `HandleRequest` split at the first blank
line, and the part after it has the length that the `Content-Length` header
states in decimal when the response has one, and is empty when it has
none. -/
theorem HandleRequest_body_length {σ : Type} (P : Platform σ) (fs : σ) (req : HTTPRequest)
    (config : Config) (it : GoMap) (hit : it.Perm (HandleRequest P fs req config).1.Headers) :
    ∃ head body,
      splitAtBlankLine { (HandleRequest P fs req config).1 with Headers := it }.ToBytes =
        some (head, body) ∧
      match mapGet (HandleRequest P fs req config).1.Headers (bytes "Content-Length") with
      | some v => decimalValue v = some body.length
      | none => body.length = 0 := by
  obtain ⟨hn, hl⟩ := HandleRequest_invariant P fs req config
  have hn' : HTTPResponse.NoCR { (HandleRequest P fs req config).1 with Headers := it } :=
    ⟨hn.1, fun kv hkv => hn.2 kv (hit.mem_iff.1 hkv)⟩
  obtain ⟨head, hh⟩ := splitAtBlankLine_ToBytes _ hn'
  exact ⟨head, _, hh, hl⟩

/-- C9, at `GET /echo/abc` with `Accept-Encoding: gzip` on the simple
platform, the header map visited in the reverse of its listed order. -/
theorem HandleRequest_body_length_witness :
    let req : HTTPRequest :=
      { Method := bytes "GET", Path := bytes "/echo/abc", Version := bytes "HTTP/1.1",
        Headers := [(bytes "Accept-Encoding", bytes "gzip")], Body := [] }
    let resp := (HandleRequest simplePlatform [] req { Directory := [] }).1
    resp.Headers.reverse.Perm resp.Headers ∧
    ∃ head body,
      splitAtBlankLine { resp with Headers := resp.Headers.reverse }.ToBytes =
        some (head, body) ∧
      match mapGet resp.Headers (bytes "Content-Length") with
      | some v => decimalValue v = some body.length
      | none => body.length = 0 :=
  ⟨List.reverse_perm _, HandleRequest_body_length _ _ _ _ _ (List.reverse_perm _)⟩

theorem dropSpaces_fuel (w : Bytes → Nat) (hw : ∀ s, w s ≤ s.length) :
    ∀ (n : Nat) (s : Bytes), s.length ≤ n → ∀ m, s.length ≤ m →
      dropSpaces w n s = dropSpaces w m s := by
  intro n
  induction n with
  | zero =>
    intro s hs m _
    have : s = [] := List.length_eq_zero.1 (by omega)
    subst this
    have h0 : w [] = 0 := by have := hw []; simpa using this
    rw [dropSpaces_of_zero w 0 [] h0, dropSpaces_of_zero w m [] h0]
  | succ n ih =>
    intro s hs m hm
    by_cases h0 : w s = 0
    · rw [dropSpaces_of_zero w _ s h0, dropSpaces_of_zero w m s h0]
    · have hpos : 0 < s.length := by have := hw s; omega
      obtain ⟨m, rfl⟩ : ∃ k, m = k + 1 := ⟨m - 1, by omega⟩
      simp only [dropSpaces, h0, if_false]
      apply ih
      · simp only [List.length_drop]; omega
      · simp only [List.length_drop]; omega

theorem dropSpaces_step (w : Bytes → Nat) (hw : ∀ s, w s ≤ s.length) (s : Bytes)
    (h0 : w s ≠ 0) :
    dropSpaces w s.length s = dropSpaces w (s.drop (w s)).length (s.drop (w s)) := by
  have hpos : 0 < s.length := by have := hw s; omega
  obtain ⟨m, hm⟩ : ∃ k, s.length = k + 1 := ⟨s.length - 1, by omega⟩
  rw [hm]
  simp only [dropSpaces, h0, if_false]
  apply dropSpaces_fuel w hw
  · simp only [List.length_drop]; omega
  · exact le_refl _

theorem dropSpaces_width (w : Bytes → Nat) (hw : ∀ s, w s ≤ s.length) :
    ∀ (n : Nat) (s : Bytes), s.length ≤ n → w (dropSpaces w n s) = 0 := by
  intro n
  induction n with
  | zero =>
    intro s hs
    have : s = [] := List.length_eq_zero.1 (by omega)
    subst this
    have := hw []
    simpa [dropSpaces] using this
  | succ n ih =>
    intro s hs
    by_cases h0 : w s = 0
    · rw [dropSpaces_of_zero w _ s h0]; exact h0
    · have hpos : 0 < s.length := by have := hw s; omega
      simp only [dropSpaces, h0, if_false]
      apply ih
      simp only [List.length_drop]; omega

theorem dropSpaces_suffix (w : Bytes → Nat) :
    ∀ (n : Nat) (s : Bytes), ∃ k, dropSpaces w n s = s.drop k := by
  intro n
  induction n with
  | zero => intro s; exact ⟨0, by simp [dropSpaces]⟩
  | succ n ih =>
    intro s
    by_cases h0 : w s = 0
    · exact ⟨0, by simp [dropSpaces, h0]⟩
    · obtain ⟨k, hk⟩ := ih (s.drop (w s))
      exact ⟨w s + k, by simp [dropSpaces, h0, hk, List.drop_drop, Nat.add_comm]⟩

/-- A width that reads a white-space rune at the front of `s` reads the same
rune however `s` goes on. -/
theorem spaceWidth_extend (s t : Bytes) (h : spaceWidth s ≠ 0) :
    spaceWidth (s ++ t) = spaceWidth s := by
  match s, t with
  | [], _ => simp [spaceWidth] at h
  | [a], [] => simp
  | [a], [b] =>
    simp only [spaceWidth] at h ⊢
    by_cases e : asciiSpace a = true <;> simp_all [spaceWidth]
  | [a], b :: c :: t =>
    simp only [spaceWidth] at h ⊢
    by_cases e : asciiSpace a = true <;> simp_all [spaceWidth]
  | [a, b], [] => simp
  | [a, b], c :: t =>
    simp only [spaceWidth] at h ⊢
    by_cases e : asciiSpace a = true <;> by_cases e2 : space2 a b = true <;>
      simp_all [spaceWidth]
  | a :: b :: c :: s, t => simp [spaceWidth]

theorem spaceWidthBack_extend (s t : Bytes) (h : spaceWidthBack s ≠ 0) :
    spaceWidthBack (s ++ t) = spaceWidthBack s := by
  match s, t with
  | [], _ => simp [spaceWidthBack] at h
  | [a], [] => simp
  | [a], [b] =>
    simp only [spaceWidthBack] at h ⊢
    by_cases e : asciiSpace a = true <;> simp_all [spaceWidthBack]
  | [a], b :: c :: t =>
    simp only [spaceWidthBack] at h ⊢
    by_cases e : asciiSpace a = true <;> simp_all [spaceWidthBack]
  | [a, b], [] => simp
  | [a, b], c :: t =>
    simp only [spaceWidthBack] at h ⊢
    by_cases e : asciiSpace a = true <;> by_cases e2 : space2 b a = true <;>
      simp_all [spaceWidthBack]
  | a :: b :: c :: s, t => simp [spaceWidthBack]

/-- Trimming from the front stops at an ASCII byte that is not white space:
what stands behind that byte plays no part. -/
theorem dropSpaces_append_ascii (w : Bytes → Nat) (hw : ∀ s, w s ≤ s.length)
    (c : Nat) (hne : ∀ (a r : Bytes), a ≠ [] → w (a ++ c :: r) = w a)
    (hnil : ∀ r : Bytes, w (c :: r) = 0) (r : Bytes) :
    ∀ (n : Nat) (a : Bytes), a.length ≤ n →
      dropSpaces w (a ++ c :: r).length (a ++ c :: r) = dropSpaces w a.length a ++ c :: r := by
  intro n
  induction n with
  | zero =>
    intro a ha
    have : a = [] := List.length_eq_zero.1 (by omega)
    subst this
    simp [dropSpaces, hnil r]
  | succ n ih =>
    intro a ha
    by_cases hnila : a = []
    · subst hnila
      simp [dropSpaces, hnil r]
    · have hwa := hne a r hnila
      by_cases h0 : w a = 0
      · rw [dropSpaces_of_zero w _ _ (hwa.trans h0), dropSpaces_of_zero w _ _ h0]
      · have hle := hw a
        rw [dropSpaces_step w hw _ (by rw [hwa]; exact h0), dropSpaces_step w hw a h0, hwa,
          List.drop_append_of_le_length hle]
        apply ih
        simp only [List.length_drop]; omega

theorem TrimLeft_append_colon (a r : Bytes) :
    TrimLeft (a ++ 58 :: r) = TrimLeft a ++ 58 :: r :=
  dropSpaces_append_ascii spaceWidth spaceWidth_le 58
    (fun a r ha => spaceWidth_append_ascii a r 58 (by omega) ha)
    (fun r => by rw [spaceWidth_cons_ascii _ _ (by omega)]; rfl) r a.length a (le_refl _)

theorem TrimRight_append_colon (x y : Bytes) :
    TrimRight (x ++ 58 :: y) = x ++ 58 :: TrimRight y := by
  have h := dropSpaces_append_ascii spaceWidthBack spaceWidthBack_le 58
    (fun a r ha => spaceWidthBack_append_ascii a r 58 (by omega) ha)
    (fun r => by rw [spaceWidthBack_cons_ascii _ _ (by omega)]; rfl) x.reverse
    y.reverse.length y.reverse (le_refl _)
  have e : (x ++ 58 :: y).reverse = y.reverse ++ 58 :: x.reverse := by simp
  unfold TrimRight
  rw [e, ← List.length_reverse (x ++ 58 :: y), e, h]
  simp

theorem TrimRight_append_crlf (b : Bytes) : TrimRight (b ++ CRLF) = TrimRight b := by
  have h10 : spaceWidthBack (10 :: 13 :: b.reverse) ≠ 0 := by
    rw [spaceWidthBack_cons_ascii _ _ (by omega)]; decide
  have h13 : spaceWidthBack (13 :: b.reverse) ≠ 0 := by
    rw [spaceWidthBack_cons_ascii _ _ (by omega)]; decide
  have e10 : spaceWidthBack (10 :: 13 :: b.reverse) = 1 := by
    rw [spaceWidthBack_cons_ascii _ _ (by omega)]; rfl
  have e13 : spaceWidthBack (13 :: b.reverse) = 1 := by
    rw [spaceWidthBack_cons_ascii _ _ (by omega)]; rfl
  have e : (b ++ CRLF).reverse = 10 :: 13 :: b.reverse := by simp [CRLF]
  unfold TrimRight
  rw [← List.length_reverse (b ++ CRLF), e, dropSpaces_step _ spaceWidthBack_le _ h10, e10,
    List.drop_one, List.tail_cons, dropSpaces_step _ spaceWidthBack_le _ h13, e13,
    List.drop_one, List.tail_cons, List.length_reverse]

theorem TrimLeft_suffix (a : Bytes) : ∃ k, TrimLeft a = a.drop k :=
  dropSpaces_suffix spaceWidth a.length a

theorem TrimRight_take (a : Bytes) : ∃ k, TrimRight a = a.take k := by
  obtain ⟨k, hk⟩ := dropSpaces_suffix spaceWidthBack a.length a.reverse
  refine ⟨a.length - k, ?_⟩
  unfold TrimRight
  rw [hk, List.reverse_drop, List.reverse_reverse]
  simp

theorem spaceWidth_TrimLeft (a : Bytes) : spaceWidth (TrimLeft a) = 0 :=
  dropSpaces_width spaceWidth spaceWidth_le a.length a (le_refl _)

theorem spaceWidthBack_TrimRight (a : Bytes) : spaceWidthBack (TrimRight a).reverse = 0 := by
  unfold TrimRight
  rw [List.reverse_reverse]
  exact dropSpaces_width spaceWidthBack spaceWidthBack_le a.length a.reverse (by simp)

theorem TrimLeft_idem (a : Bytes) : TrimLeft (TrimLeft a) = TrimLeft a :=
  TrimLeft_of_zero _ (spaceWidth_TrimLeft a)

theorem TrimRight_of_zero (s : Bytes) (h : spaceWidthBack s.reverse = 0) : TrimRight s = s := by
  unfold TrimRight
  rw [dropSpaces_of_zero _ _ _ h, List.reverse_reverse]

theorem TrimRight_idem (a : Bytes) : TrimRight (TrimRight a) = TrimRight a :=
  TrimRight_of_zero _ (spaceWidthBack_TrimRight a)

theorem Index_append (c : Nat) (x y : Bytes) (h : c ∉ x) :
    Index c (x ++ c :: y) = some x.length := by
  induction x with
  | nil => simp [Index]
  | cons b x ih =>
    have hb : b ≠ c := fun e => h (by simp [e])
    have hr : c ∉ x := fun e => h (List.mem_cons_of_mem _ e)
    simp [Index, hb, ih hr]

theorem Index_none (c : Nat) (x : Bytes) (h : c ∉ x) : Index c x = none := by
  induction x with
  | nil => rfl
  | cons b x ih =>
    have hb : b ≠ c := fun e => h (by simp [e])
    have hr : c ∉ x := fun e => h (List.mem_cons_of_mem _ e)
    simp [Index, hb, ih hr]

/-- A line with a colon, as the header loop sees it after trimming: the text
before the first colon trimmed on the left, the colon, and the text after it
trimmed on the right. -/
theorem TrimSpace_colon_line (a b : Bytes) :
    TrimSpace (a ++ 58 :: (b ++ CRLF)) = TrimLeft a ++ 58 :: TrimRight b := by
  rw [TrimSpace, TrimLeft_append_colon, TrimRight_append_colon, TrimRight_append_crlf]

theorem storeHeader_colon_line (hs : GoMap) (a b : Bytes) (ha : 58 ∉ a) :
    storeHeader hs (TrimSpace (a ++ 58 :: (b ++ CRLF))) =
      mapSet hs (TrimSpace a) (TrimSpace (TrimRight b)) := by
  obtain ⟨k, hk⟩ := TrimLeft_suffix a
  have hmem : 58 ∉ TrimLeft a := by
    rw [hk]; exact fun h => ha (List.mem_of_mem_drop h)
  rw [TrimSpace_colon_line, storeHeader, Index_append 58 _ _ hmem]
  simp only [List.take_left', List.drop_left', TrimSpace, TrimLeft_idem]
  have : List.drop ((TrimLeft a).length + 1) (TrimLeft a ++ 58 :: TrimRight b) = TrimRight b := by
    rw [List.drop_append_eq_append_drop]
    simp
  rw [this]

/-- The white-space rune read at the front of `s` is read from its own bytes
alone. -/
theorem spaceWidth_take (s : Bytes) (h : spaceWidth s ≠ 0) :
    spaceWidth (s.take (spaceWidth s)) = spaceWidth s := by
  match s with
  | [] => simp [spaceWidth] at h
  | [a] =>
    simp only [spaceWidth] at h ⊢
    by_cases e : asciiSpace a = true <;> simp_all [spaceWidth]
  | [a, b] =>
    simp only [spaceWidth] at h ⊢
    by_cases e : asciiSpace a = true <;> by_cases e2 : space2 a b = true <;>
      simp_all [spaceWidth]
  | a :: b :: c :: s =>
    simp only [spaceWidth] at h ⊢
    by_cases e : asciiSpace a = true <;> by_cases e2 : space2 a b = true <;>
      by_cases e3 : space3 a b c = true <;> simp_all [spaceWidth]

theorem space2_bytes (a b : Nat) (h : space2 a b = true) : a = 194 ∧ 128 ≤ b := by
  simp [space2] at h; omega

theorem space3_bytes (a b c : Nat) (h : space3 a b c = true) :
    225 ≤ a ∧ a ≤ 227 ∧ 128 ≤ b ∧ b ≤ 154 ∧ 128 ≤ c ∧ c ≤ 175 := by
  simp [space3] at h; omega

theorem asciiSpace_lt (a : Nat) (h : asciiSpace a = true) : a < 128 := by
  simp [asciiSpace] at h; omega

/-- A white-space rune is one of three shapes. -/
theorem spaceWidth_full (e : Bytes) (he : e ≠ []) (h : spaceWidth e = e.length) :
    (∃ a, e = [a] ∧ asciiSpace a = true) ∨
    (∃ a b, e = [a, b] ∧ space2 a b = true) ∨
    (∃ a b c, e = [a, b, c] ∧ space3 a b c = true) := by
  match e, he with
  | [a], _ =>
    simp only [spaceWidth] at h
    by_cases e1 : asciiSpace a = true
    · exact Or.inl ⟨a, rfl, e1⟩
    · simp [e1] at h
  | [a, b], _ =>
    simp only [spaceWidth] at h
    by_cases e1 : asciiSpace a = true
    · simp [e1] at h
    · by_cases e2 : space2 a b = true
      · exact Or.inr (Or.inl ⟨a, b, rfl, e2⟩)
      · simp [e1, e2] at h
  | [a, b, c], _ =>
    simp only [spaceWidth] at h
    by_cases e1 : asciiSpace a = true
    · simp [e1] at h
    · by_cases e2 : space2 a b = true
      · simp [e1, e2] at h
      · by_cases e3 : space3 a b c = true
        · exact Or.inr (Or.inr ⟨a, b, c, rfl, e3⟩)
        · simp [e1, e2, e3] at h
  | a :: b :: c :: d :: e, _ =>
    have := spaceWidth_le (a :: b :: c :: d :: e)
    simp only [spaceWidth] at h
    split_ifs at h <;> simp at h

theorem asciiSpace_of_ge (a : Nat) (h : 128 ≤ a) : asciiSpace a = false := by
  simp [asciiSpace]; omega

/-- Read from the end, a white-space rune is read whole. -/
theorem spaceWidthBack_rune (e : Bytes) (he : e ≠ []) (h : spaceWidth e = e.length) :
    spaceWidthBack e.reverse = e.length := by
  rcases spaceWidth_full e he h with ⟨a, rfl, h1⟩ | ⟨a, b, rfl, h2⟩ | ⟨a, b, c, rfl, h3⟩
  · simp [spaceWidthBack, h1]
  · have := space2_bytes a b h2
    simp [spaceWidthBack, h2, asciiSpace_of_ge b this.2]
  · have := space3_bytes a b c h3
    have hb : space2 b c = false := by simp [space2]; omega
    simp [spaceWidthBack, h3, asciiSpace_of_ge c this.2.2.2.2.1, hb]

/-- What does not end in white space does not end in white space either
when a white-space rune stands before it. -/
theorem spaceWidthBack_after_rune (u e : Bytes) (hu : u ≠ []) (h0 : spaceWidthBack u = 0)
    (he : e ≠ []) (h : spaceWidth e = e.length) : spaceWidthBack (u ++ e.reverse) = 0 := by
  match u, hu with
  | x :: y :: z :: u, _ => simpa [spaceWidthBack] using h0
  | [x, y], _ =>
    have hx : asciiSpace x = false := by
      simp only [spaceWidthBack] at h0
      by_cases e1 : asciiSpace x = true
      · simp [e1] at h0
      · simpa using e1
    have hxy : space2 y x = false := by
      simp only [spaceWidthBack] at h0
      by_cases e2 : space2 y x = true
      · simp [hx, e2] at h0
      · simpa using e2
    have key : ∀ q r, (q < 225 ∨ 227 < q) → spaceWidthBack (x :: y :: q :: r) = 0 := by
      intro q r hq
      have : space3 q y x = false := by simp [space3]; omega
      simp [spaceWidthBack, hx, hxy, this]
    rcases spaceWidth_full e he h with ⟨a, rfl, h1⟩ | ⟨a, b, rfl, h2⟩ | ⟨a, b, c, rfl, h3⟩
    · exact key a [] (by have := asciiSpace_lt a h1; omega)
    · exact key b [a] (by simp [space2] at h2; omega)
    · exact key c [b, a] (by simp [space3] at h3; omega)
  | [x], _ =>
    have hx : asciiSpace x = false := by
      simp only [spaceWidthBack] at h0
      by_cases e1 : asciiSpace x = true
      · simp [e1] at h0
      · simpa using e1
    rcases spaceWidth_full e he h with ⟨a, rfl, h1⟩ | ⟨a, b, rfl, h2⟩ | ⟨a, b, c, rfl, h3⟩
    · have ha := asciiSpace_lt a h1
      have : space2 a x = false := by simp [space2]; omega
      simp [spaceWidthBack, hx, this]
    · have h2' : a = 194 ∧ (b = 133 ∨ b = 160) := by simpa [space2] using h2
      have e1 : space2 b x = false := by simp [space2]; omega
      have e2 : space3 a b x = false := by simp [space3]; omega
      simp [spaceWidthBack, hx, e1, e2]
    · have hb := space3_bytes a b c h3
      have h3' := h3
      simp only [space3] at h3'
      have e1 : space2 c x = false := by simp [space2]; omega
      have e2 : space3 b c x = false := by simp [space3]; omega
      simp [spaceWidthBack, hx, e1, e2]

/-- Trimming from the end, with a white-space rune `e` in front of the
string: the rune goes exactly when everything behind it goes. -/
theorem dropSpaces_back_rune (e : Bytes) (he : e ≠ []) (h : spaceWidth e = e.length) :
    ∀ (n : Nat) (u : Bytes), u.length ≤ n →
      dropSpaces spaceWidthBack (u ++ e.reverse).length (u ++ e.reverse) =
        if dropSpaces spaceWidthBack u.length u = [] then []
        else dropSpaces spaceWidthBack u.length u ++ e.reverse := by
  have hrune := spaceWidthBack_rune e he h
  have hnil : dropSpaces spaceWidthBack e.reverse.length e.reverse = [] := by
    have hne : spaceWidthBack e.reverse ≠ 0 := by
      rw [hrune]; exact fun h0 => he (List.length_eq_zero.1 h0)
    rw [dropSpaces_step _ spaceWidthBack_le _ hne, hrune, ← List.length_reverse e,
      List.drop_length]
    rfl
  intro n
  induction n with
  | zero =>
    intro u hu
    have : u = [] := List.length_eq_zero.1 (by omega)
    subst this
    simpa [dropSpaces] using hnil
  | succ n ih =>
    intro u hu
    by_cases hun : u = []
    · subst hun
      simpa [dropSpaces] using hnil
    · by_cases h0 : spaceWidthBack u = 0
      · rw [dropSpaces_of_zero _ _ _ (spaceWidthBack_after_rune u e hun h0 he h),
          dropSpaces_of_zero _ _ u h0, if_neg hun]
      · have hp := spaceWidthBack_extend u e.reverse h0
        have hle := spaceWidthBack_le u
        rw [dropSpaces_step _ spaceWidthBack_le _ (by rw [hp]; exact h0), hp,
          List.drop_append_of_le_length hle, dropSpaces_step _ spaceWidthBack_le u h0]
        apply ih
        simp only [List.length_drop]; omega

theorem TrimRight_rune_append (e s : Bytes) (he : e ≠ []) (h : spaceWidth e = e.length) :
    TrimRight (e ++ s) = if TrimRight s = [] then [] else e ++ TrimRight s := by
  have hz := dropSpaces_back_rune e he h s.reverse.length s.reverse (le_refl _)
  have e1 : (e ++ s).reverse = s.reverse ++ e.reverse := by simp
  unfold TrimRight
  rw [← List.length_reverse (e ++ s), e1, hz, ← List.length_reverse s]
  by_cases hn : dropSpaces spaceWidthBack s.reverse.length s.reverse = []
  · simp only [List.length_reverse] at hn ⊢
    simp [hn]
  · simp only [List.length_reverse] at hn ⊢
    simp [hn]

/-- Trimming leading and trailing white space can be done in either order. -/
theorem TrimLeft_TrimRight_comm :
    ∀ (n : Nat) (s : Bytes), s.length ≤ n → TrimLeft (TrimRight s) = TrimRight (TrimLeft s) := by
  intro n
  induction n with
  | zero =>
    intro s hs
    have : s = [] := List.length_eq_zero.1 (by omega)
    subst this
    rfl
  | succ n ih =>
    intro s hs
    by_cases h0 : spaceWidth s = 0
    · rw [TrimLeft_of_zero s h0]
      apply TrimLeft_of_zero
      obtain ⟨k, hk⟩ := TrimRight_take s
      rw [hk]
      by_contra hne
      have := spaceWidth_extend (s.take k) (s.drop k) hne
      rw [List.take_append_drop] at this
      exact hne (this ▸ h0)
    · have hle := spaceWidth_le s
      have hk := spaceWidth_take s h0
      have hlen : (s.take (spaceWidth s)).length = spaceWidth s := by
        simp only [List.length_take]; omega
      have hene : s.take (spaceWidth s) ≠ [] := by
        intro hnil; rw [hnil] at hlen; simp at hlen; exact h0 hlen.symm
      have hfull : spaceWidth (s.take (spaceWidth s)) = (s.take (spaceWidth s)).length :=
        hk.trans hlen.symm
      have hL : TrimLeft s = TrimLeft (s.drop (spaceWidth s)) :=
        dropSpaces_step _ spaceWidth_le s h0
      have hR := TrimRight_rune_append (s.take (spaceWidth s)) (s.drop (spaceWidth s))
        hene hfull
      rw [List.take_append_drop] at hR
      have hih := ih (s.drop (spaceWidth s)) (by simp only [List.length_drop]; omega)
      rw [hL, ← hih, hR]
      by_cases hn : TrimRight (s.drop (spaceWidth s)) = []
      · simp [hn]
      · simp only [hn, if_false]
        have hw : spaceWidth (s.take (spaceWidth s) ++ TrimRight (s.drop (spaceWidth s))) =
            spaceWidth s := by
          rw [spaceWidth_extend _ _ (by rw [hk]; exact h0), hk]
        have hstep := dropSpaces_step _ spaceWidth_le
          (s.take (spaceWidth s) ++ TrimRight (s.drop (spaceWidth s))) (by rw [hw]; exact h0)
        have hd : List.drop (spaceWidth s)
            (s.take (spaceWidth s) ++ TrimRight (s.drop (spaceWidth s))) =
            TrimRight (s.drop (spaceWidth s)) := List.drop_left' hlen
        rw [hw, hd] at hstep
        exact hstep

/-- Trimming what has been trimmed on the right is trimming. -/
theorem TrimSpace_TrimRight (b : Bytes) : TrimSpace (TrimRight b) = TrimSpace b := by
  rw [TrimSpace, TrimLeft_TrimRight_comm _ _ (le_refl _), TrimRight_idem, TrimSpace]

/-- The header loop stores a line with a colon under the trimmed text before
its first colon, with the trimmed text after that colon as the value. -/
theorem storeHeader_line (hs : GoMap) (a b : Bytes) (ha : 58 ∉ a) :
    storeHeader hs (TrimSpace (a ++ 58 :: b ++ CRLF)) =
      mapSet hs (TrimSpace a) (TrimSpace b) := by
  have e : a ++ 58 :: b ++ CRLF = a ++ 58 :: (b ++ CRLF) := by simp
  rw [e, storeHeader_colon_line hs a b ha, TrimSpace_TrimRight]

theorem mem_of_mem_TrimSpace (s : Bytes) (x : Nat) (h : x ∈ TrimSpace s) : x ∈ s := by
  obtain ⟨k, hk⟩ := TrimRight_take (TrimLeft s)
  obtain ⟨j, hj⟩ := TrimLeft_suffix s
  rw [TrimSpace, hk, hj] at h
  exact List.mem_of_mem_drop (List.mem_of_mem_take h)

theorem storeLines_append (hs : GoMap) (ls1 ls2 : List Bytes) :
    storeLines hs (ls1 ++ ls2) = storeLines (storeLines hs ls1) ls2 := by
  simp [storeLines, List.foldl_append]

/-- A line without a colon leaves the header map as it is. -/
theorem storeHeader_no_colon (hs : GoMap) (l : Bytes) (h : 58 ∉ l) :
    storeHeader hs (TrimSpace (l ++ CRLF)) = hs := by
  have : 58 ∉ TrimSpace (l ++ CRLF) := by
    intro hm
    have := mem_of_mem_TrimSpace _ _ hm
    simp [CRLF] at this
    exact h this
  simp [storeHeader, Index_none 58 _ this]

/-- Lines that store nothing under the name `k` leave the entry of `k` as it
is. -/
theorem mapGet_storeLines_other (k : Bytes) (ls : List Bytes) :
    ∀ hs : GoMap,
      (∀ l ∈ ls, ∀ a b : Bytes, l = a ++ 58 :: b → 58 ∉ a → TrimSpace a ≠ k) →
      mapGet (storeLines hs ls) k = mapGet hs k := by
  induction ls with
  | nil => intro hs _; rfl
  | cons l ls ih =>
    intro hs h
    rw [storeLines_cons, ih _ (fun x hx => h x (List.mem_cons_of_mem _ hx))]
    by_cases hc : 58 ∈ l
    · obtain ⟨a, b, rfl, ha⟩ := List.eq_append_cons_of_mem hc
      have hne := h _ (List.mem_cons_self _ _) a b rfl ha
      rw [storeHeader_line hs a b ha, mapGet_mapSet_other _ _ _ _ (Ne.symm hne)]
    · rw [storeHeader_no_colon hs l hc]

theorem HeaderLine_colon (a b : Bytes) (ha : 10 ∉ a) (hb : 10 ∉ b) :
    HeaderLine (a ++ 58 :: b) := by
  refine ⟨by simp [ha, hb], ?_⟩
  have e : a ++ 58 :: b ++ CRLF = a ++ 58 :: (b ++ CRLF) := by simp
  rw [e, TrimSpace_colon_line]
  simp

/-- C5: a header line `a : b` whose first colon stands after `a` is stored
under the name `TrimSpace a` with the value `TrimSpace b`, later colons being
part of `b`; the entry is in the parsed request unless a later line of the
block stores the same name again. -/
theorem ParseRequest_header_first_colon (m p v : Bytes) (ls1 ls2 : List Bytes)
    (a b tail : Bytes) (hm : Token m) (hp : Token p) (hv : Token v)
    (hls1 : ∀ l ∈ ls1, HeaderLine l) (hls2 : ∀ l ∈ ls2, HeaderLine l)
    (hcolon : 58 ∉ a) (ha : 10 ∉ a) (hb : 10 ∉ b)
    (hlater : ∀ l ∈ ls2, ∀ a2 b2 : Bytes, l = a2 ++ 58 :: b2 → 58 ∉ a2 →
      TrimSpace a2 ≠ TrimSpace a)
    (hbody : BodyPresent (storeLines [] (ls1 ++ (a ++ 58 :: b) :: ls2)) tail) :
    ∃ req rest,
      ParseRequest (requestLine m p v ++ joinLines (ls1 ++ (a ++ 58 :: b) :: ls2) ++ CRLF ++
        tail) = .ok (req, rest) ∧
      mapGet req.Headers (TrimSpace a) = some (TrimSpace b) := by
  have hls : ∀ l ∈ ls1 ++ (a ++ 58 :: b) :: ls2, HeaderLine l := by
    intro l hl
    rcases List.mem_append.1 hl with h | h
    · exact hls1 l h
    · rcases List.mem_cons.1 h with rfl | h
      · exact HeaderLine_colon a b ha hb
      · exact hls2 l h
  obtain ⟨body, rest, hbd, _⟩ := readBody_present _ _ hbody
  refine ⟨{ Method := m, Path := p, Version := v,
            Headers := storeLines [] (ls1 ++ (a ++ 58 :: b) :: ls2), Body := body }, rest,
    ?_, ?_⟩
  · rw [ParseRequest_wellformed m p v _ tail hm hp hv hls, hbd]
  · show mapGet (storeLines [] (ls1 ++ (a ++ 58 :: b) :: ls2)) (TrimSpace a) = _
    rw [storeLines_append, storeLines_cons, mapGet_storeLines_other _ _ _ hlater,
      storeHeader_line _ a b hcolon, mapGet_mapSet_self]

/-- C5, at the header line `Host: localhost:4221` between two other
lines. -/
theorem ParseRequest_header_first_colon_witness :
    Token (bytes "GET") ∧ Token (bytes "/") ∧ Token (bytes "HTTP/1.1") ∧
    (∀ l ∈ [bytes "Accept: */*"], HeaderLine l) ∧
    (∀ l ∈ [bytes "User-Agent: curl/8"], HeaderLine l) ∧
    58 ∉ bytes "Host" ∧ 10 ∉ bytes "Host" ∧ 10 ∉ bytes " localhost:4221" ∧
    (∀ l ∈ [bytes "User-Agent: curl/8"], ∀ a2 b2 : Bytes, l = a2 ++ 58 :: b2 → 58 ∉ a2 →
      TrimSpace a2 ≠ TrimSpace (bytes "Host")) ∧
    BodyPresent (storeLines [] ([bytes "Accept: */*"] ++
      (bytes "Host" ++ 58 :: bytes " localhost:4221") :: [bytes "User-Agent: curl/8"])) [] ∧
    (∃ req rest,
      ParseRequest (requestLine (bytes "GET") (bytes "/") (bytes "HTTP/1.1") ++
        joinLines ([bytes "Accept: */*"] ++
          (bytes "Host" ++ 58 :: bytes " localhost:4221") :: [bytes "User-Agent: curl/8"]) ++
        CRLF ++ []) = .ok (req, rest) ∧
      mapGet req.Headers (TrimSpace (bytes "Host")) = some (TrimSpace (bytes " localhost:4221"))) ∧
    TrimSpace (bytes "Host") = bytes "Host" ∧
    TrimSpace (bytes " localhost:4221") = bytes "localhost:4221" := by
  have hlater : ∀ l ∈ [bytes "User-Agent: curl/8"], ∀ a2 b2 : Bytes, l = a2 ++ 58 :: b2 →
      58 ∉ a2 → TrimSpace a2 ≠ TrimSpace (bytes "Host") := by
    intro l hl a2 b2 e hc heq
    have hl' : l = bytes "User-Agent: curl/8" := by simpa using hl
    subst hl'
    have e' : bytes "User-Agent: curl/8" = bytes "User-Agent" ++ 58 :: bytes " curl/8" := by
      decide
    have hc' : 58 ∉ bytes "User-Agent" := by decide
    have hidx := Index_append 58 a2 b2 hc
    rw [← e, e', Index_append 58 _ _ hc'] at hidx
    have hlen : a2.length = (bytes "User-Agent").length := by
      injection hidx with hidx; exact hidx.symm
    have ha2 : a2 = bytes "User-Agent" := by
      have h1 : List.take a2.length (a2 ++ 58 :: b2) = a2 := List.take_left' rfl
      have h2 : List.take a2.length (bytes "User-Agent" ++ 58 :: bytes " curl/8") =
          bytes "User-Agent" := List.take_left' hlen.symm
      rw [← e, e'] at h1
      exact h1.symm.trans h2
    rw [ha2] at heq
    exact absurd heq (by decide)
  exact ⟨by decide, by decide, by decide, by decide, by decide, by decide, by decide,
    by decide, hlater, by decide,
    ParseRequest_header_first_colon _ _ _ _ _ _ _ _ (by decide) (by decide) (by decide)
      (by decide) (by decide) (by decide) (by decide) (by decide) hlater (by decide),
    by decide, by decide⟩

theorem ReadString_length (delim : Nat) (s : Bytes) :
    ∀ (line rest : Bytes), ReadString delim s = some (line, rest) →
      rest.length < s.length ∧ line ++ rest = s := by
  induction s with
  | nil => intro line rest h; simp [ReadString] at h
  | cons b s ih =>
    intro line rest h
    simp only [ReadString] at h
    by_cases hb : b = delim
    · simp only [hb, if_true, Option.some.injEq, Prod.mk.injEq] at h
      obtain ⟨rfl, rfl⟩ := h
      simp [hb]
    · simp only [hb, if_false] at h
      cases hr : ReadString delim s with
      | none => simp [hr] at h
      | some lr =>
        obtain ⟨l2, r2⟩ := lr
        simp only [hr, Option.some.injEq, Prod.mk.injEq] at h
        obtain ⟨rfl, rfl⟩ := h
        have := ih l2 r2 hr
        exact ⟨by simp only [List.length_cons]; omega, by simp [this.2]⟩

/-- The header loop never runs out of fuel: any two amounts of fuel above the
length of the stream give the same result. -/
theorem parseHeaders_fuel :
    ∀ (n : Nat) (hs : GoMap) (s : Bytes), s.length < n → ∀ m, s.length < m →
      parseHeaders n hs s = parseHeaders m hs s := by
  intro n
  induction n with
  | zero => intro hs s h; omega
  | succ n ih =>
    intro hs s hn m hm
    obtain ⟨m, rfl⟩ : ∃ k, m = k + 1 := ⟨m - 1, by omega⟩
    simp only [parseHeaders]
    cases hr : ReadString 10 s with
    | none => rfl
    | some lr =>
      obtain ⟨line, rest⟩ := lr
      have hl := (ReadString_length 10 s line rest hr).1
      simp only
      split_ifs
      · rfl
      · exact ih _ _ (by omega) m (by omega)

theorem readBody_length (hs : GoMap) (s body rest : Bytes)
    (h : readBody hs s = .ok (body, rest)) :
    body ++ rest = s ∧
    match mapGet hs (bytes "Content-Length") with
    | none => body = []
    | some c => ∃ n : Int, Atoi c = some n ∧ body.length = n.toNat := by
  unfold readBody at h
  cases hc : mapGet hs (bytes "Content-Length") with
  | none =>
    simp only [hc, Except.ok.injEq, Prod.mk.injEq] at h
    obtain ⟨rfl, rfl⟩ := h
    exact ⟨rfl, rfl⟩
  | some c =>
    simp only [hc] at h
    cases hn : Atoi c with
    | none => simp [hn] at h
    | some n =>
      simp only [hn] at h
      by_cases hpos : n > 0
      · simp only [hpos, if_true, ReadFull] at h
        by_cases hle : n.toNat ≤ s.length
        · simp only [hle, if_true, Except.ok.injEq, Prod.mk.injEq] at h
          obtain ⟨rfl, rfl⟩ := h
          exact ⟨List.take_append_drop _ _, n, hn, by simp [hle]⟩
        · simp [hle] at h
      · simp only [hpos, if_false, Except.ok.injEq, Prod.mk.injEq] at h
        obtain ⟨rfl, rfl⟩ := h
        refine ⟨rfl, n, hn, ?_⟩
        have : n.toNat = 0 := by omega
        simp [this]

/-- The body of a parsed request under the exact spelling `Content-Length`:
as many bytes as the header's number says (none for a number below one), and
no bytes without that entry. -/
theorem ParseRequest_body_length (s : Bytes) (req : HTTPRequest) (rest : Bytes)
    (h : ParseRequest s = .ok (req, rest)) :
    match mapGet req.Headers (bytes "Content-Length") with
    | none => req.Body = []
    | some c => ∃ n : Int, Atoi c = some n ∧ req.Body.length = n.toNat := by
  unfold ParseRequest at h
  split at h
  · simp at h
  · simp only at h
    split at h
    · split at h
      · simp at h
      · rename_i hs rd _
        split at h
        · simp at h
        · rename_i body rd2 hb
          simp only [Except.ok.injEq, Prod.mk.injEq] at h
          obtain ⟨rfl, rfl⟩ := h
          exact (readBody_length _ _ _ _ hb).2
    · simp at h

theorem HasPrefix_append (pre rest : Bytes) : HasPrefix (pre ++ rest) pre = true := by
  simp [HasPrefix]

theorem TrimPrefix_append (pre rest : Bytes) : TrimPrefix (pre ++ rest) pre = rest := by
  simp [TrimPrefix, HasPrefix]

theorem HasPrefix_iff (s pre : Bytes) : HasPrefix s pre = true ↔ pre <+: s := by
  simp [HasPrefix]

/-- Without an entry whose name is `name` ignoring case, `GetHeader` returns
the empty string. -/
theorem GetHeader_absent (foldUnicode : Bytes → Bytes → Bool) (req : HTTPRequest)
    (name : Bytes) (h : ∀ kv ∈ req.Headers, EqualFold foldUnicode kv.1 name = false) :
    req.GetHeader foldUnicode name = [] := by
  unfold HTTPRequest.GetHeader
  have : req.Headers.find? (fun kv => EqualFold foldUnicode kv.1 name) = none := by
    rw [List.find?_eq_none]
    intro kv hkv
    simp [h kv hkv]
  rw [this]

theorem echo_path (rest : Bytes) :
    bytes "/echo/" ++ rest ≠ bytes "/" ∧
    HasPrefix (bytes "/echo/" ++ rest) (bytes "/echo/") = true ∧
    TrimPrefix (bytes "/echo/" ++ rest) (bytes "/echo/") = rest :=
  ⟨by simp [bytes, encodeRune], HasPrefix_append _ _, TrimPrefix_append _ _⟩

theorem files_path (name : Bytes) :
    bytes "/files/" ++ name ≠ bytes "/" ∧
    HasPrefix (bytes "/files/" ++ name) (bytes "/echo/") = false ∧
    bytes "/files/" ++ name ≠ bytes "/user-agent" ∧
    HasPrefix (bytes "/files/" ++ name) (bytes "/files/") = true ∧
    TrimPrefix (bytes "/files/" ++ name) (bytes "/files/") = name :=
  ⟨by simp [bytes, encodeRune], by simp [HasPrefix, bytes, encodeRune, List.isPrefixOf],
    by simp [bytes, encodeRune], HasPrefix_append _ _, TrimPrefix_append _ _⟩

/-- C11: for a path `/echo/` followed by `rest` and a request without an
`Accept-Encoding` header (no header name equals it ignoring case),
`HandleRequest` answers 200 `OK` with the bytes of `rest` as the body and
exactly two headers, `Content-Type: text/plain` and `Content-Length` with the
length of `rest`; there is no `Content-Encoding` header, and the file system
is left alone. -/
theorem HandleRequest_echo_plain {σ : Type} (P : Platform σ) (fs : σ) (req : HTTPRequest)
    (config : Config) (rest : Bytes) (hpath : req.Path = bytes "/echo/" ++ rest)
    (hnone : ∀ kv ∈ req.Headers,
      EqualFold P.foldUnicode kv.1 (bytes "Accept-Encoding") = false) :
    HandleRequest P fs req config =
      ({ StatusCode := 200, StatusText := bytes "OK",
         Headers := [(bytes "Content-Type", bytes "text/plain"),
                     (bytes "Content-Length", formatInt (rest.length : Int))],
         Body := rest }, fs) ∧
    mapGet (HandleRequest P fs req config).1.Headers (bytes "Content-Encoding") = none := by
  obtain ⟨h1, h2, h3⟩ := echo_path rest
  have hschemes : req.ParseAcceptEncoding P.foldUnicode = [] := by
    simp [HTTPRequest.ParseAcceptEncoding, GetHeader_absent _ req _ hnone]
  have hres : HandleRequest P fs req config =
      ({ StatusCode := 200, StatusText := bytes "OK",
         Headers := [(bytes "Content-Type", bytes "text/plain"),
                     (bytes "Content-Length", formatInt (rest.length : Int))],
         Body := rest }, fs) := by
    unfold HandleRequest
    simp only [hpath, h1, h2, h3, if_true, if_false, hschemes, SupportsGzip]
    rfl
  refine ⟨hres, ?_⟩
  rw [hres]
  have e1 : bytes "Content-Type" ≠ bytes "Content-Encoding" := by decide
  have e2 : bytes "Content-Length" ≠ bytes "Content-Encoding" := by decide
  simp [mapGet, e1, e2]

/-- C11, at `GET /echo/abc` with a `Host` header only. -/
theorem HandleRequest_echo_plain_witness :
    let req : HTTPRequest :=
      { Method := bytes "GET", Path := bytes "/echo/abc", Version := bytes "HTTP/1.1",
        Headers := [(bytes "Host", bytes "localhost")], Body := [] }
    req.Path = bytes "/echo/" ++ bytes "abc" ∧
    (∀ kv ∈ req.Headers,
      EqualFold simplePlatform.foldUnicode kv.1 (bytes "Accept-Encoding") = false) ∧
    HandleRequest simplePlatform [] req { Directory := [] } =
      ({ StatusCode := 200, StatusText := bytes "OK",
         Headers := [(bytes "Content-Type", bytes "text/plain"),
                     (bytes "Content-Length", bytes "3")],
         Body := bytes "abc" }, []) := by
  intro req
  have h1 : req.Path = bytes "/echo/" ++ bytes "abc" := by decide
  have h2 : ∀ kv ∈ req.Headers,
      EqualFold simplePlatform.foldUnicode kv.1 (bytes "Accept-Encoding") = false := by
    decide
  exact ⟨h1, h2,
    (HandleRequest_echo_plain simplePlatform [] req { Directory := [] } (bytes "abc") h1
      h2).1⟩

/-- C14: with an empty `Config.Directory`, for every name, `HandleRequest`
answers `GET /files/<name>` with 404 and `POST /files/<name>` with 500, on
every platform and with the file system as it was: the answer is fixed before
any function of the file collaborator is reached, so it is the same whatever
those functions would do. -/
theorem HandleRequest_files_no_directory {σ : Type} (P : Platform σ) (fs : σ)
    (req : HTTPRequest) (config : Config) (name : Bytes)
    (hpath : req.Path = bytes "/files/" ++ name) (hdir : config.Directory = []) :
    (req.Method = bytes "GET" →
      HandleRequest P fs req config = (Response404, fs) ∧
      (HandleRequest P fs req config).1.StatusCode = 404) ∧
    (req.Method = bytes "POST" →
      HandleRequest P fs req config = (Response500, fs) ∧
      (HandleRequest P fs req config).1.StatusCode = 500) ∧
    (req.Method = bytes "GET" ∨ req.Method = bytes "POST" →
      ∀ Q : Platform σ, HandleRequest Q fs req config = HandleRequest P fs req config) := by
  obtain ⟨h1, h2, h3, h4, h5⟩ := files_path name
  have hget : ∀ Q : Platform σ, req.Method = bytes "GET" →
      HandleRequest Q fs req config = (Response404, fs) := by
    intro Q hm
    unfold HandleRequest
    simp only [hpath, h1, h2, h3, h4, h5, hm, if_true, if_false, handleFileGet, hdir]
    rfl
  have hpost : ∀ Q : Platform σ, req.Method = bytes "POST" →
      HandleRequest Q fs req config = (Response500, fs) := by
    intro Q hm
    have hne : bytes "POST" ≠ bytes "GET" := by decide
    unfold HandleRequest
    simp only [hpath, h1, h2, h3, h4, h5, hm, hne, if_true, if_false, handleFilePost, hdir]
    rfl
  refine ⟨fun hm => ⟨hget P hm, by rw [hget P hm]; rfl⟩,
    fun hm => ⟨hpost P hm, by rw [hpost P hm]; rfl⟩, ?_⟩
  rintro (hm | hm) Q
  · rw [hget Q hm, hget P hm]
  · rw [hpost Q hm, hpost P hm]

/-- C14, at the path `/files/anything` and the method `GET` on the simple
platform with a file of that name in its file system. -/
theorem HandleRequest_files_no_directory_witness :
    let req : HTTPRequest :=
      { Method := bytes "GET", Path := bytes "/files/anything", Version := bytes "HTTP/1.1",
        Headers := [], Body := [] }
    let fs : GoMap := [(bytes "/anything", bytes "data")]
    req.Path = bytes "/files/" ++ bytes "anything" ∧ (⟨[]⟩ : Config).Directory = [] ∧
    req.Method = bytes "GET" ∧
    HandleRequest simplePlatform fs req ⟨[]⟩ = (Response404, fs) := by
  intro req fs
  have h1 : req.Path = bytes "/files/" ++ bytes "anything" := by decide
  exact ⟨h1, rfl, rfl,
    ((HandleRequest_files_no_directory simplePlatform fs req ⟨[]⟩ _ h1 rfl).1 rfl).1⟩

/-- C15: a request whose path is neither `/` nor `/user-agent`, does not
start with `/echo/`, and is not a path starting with `/files/` with the
method `GET` or `POST`, is answered with 404 `Not Found`, no headers and an
empty body, the file system as it was. -/
theorem HandleRequest_not_found {σ : Type} (P : Platform σ) (fs : σ) (req : HTTPRequest)
    (config : Config) (hroot : req.Path ≠ bytes "/")
    (hagent : req.Path ≠ bytes "/user-agent")
    (hecho : ¬ bytes "/echo/" <+: req.Path)
    (hfiles : ¬ (bytes "/files/" <+: req.Path ∧
      (req.Method = bytes "GET" ∨ req.Method = bytes "POST"))) :
    HandleRequest P fs req config =
      ({ StatusCode := 404, StatusText := bytes "Not Found", Headers := [], Body := [] },
        fs) := by
  have he : HasPrefix req.Path (bytes "/echo/") = false := by
    rw [← Bool.not_eq_true, HasPrefix_iff]; exact hecho
  unfold HandleRequest
  simp only [hroot, hagent, he, if_false, Bool.false_eq_true]
  by_cases hf : HasPrefix req.Path (bytes "/files/") = true
  · have hm : ¬ (req.Method = bytes "GET" ∨ req.Method = bytes "POST") :=
      fun h => hfiles ⟨(HasPrefix_iff _ _).1 hf, h⟩
    simp only [hf, if_true, not_or] at hm ⊢
    simp only [hm.1, hm.2, if_false]
    rfl
  · simp only [hf, if_false]
    rfl

/-- C15, at `GET /nope`. -/
theorem HandleRequest_not_found_witness :
    let req : HTTPRequest :=
      { Method := bytes "GET", Path := bytes "/nope", Version := bytes "HTTP/1.1",
        Headers := [], Body := [] }
    req.Path ≠ bytes "/" ∧ req.Path ≠ bytes "/user-agent" ∧ ¬ bytes "/echo/" <+: req.Path ∧
    ¬ (bytes "/files/" <+: req.Path ∧
      (req.Method = bytes "GET" ∨ req.Method = bytes "POST")) ∧
    HandleRequest simplePlatform [] req ⟨[]⟩ =
      ({ StatusCode := 404, StatusText := bytes "Not Found", Headers := [], Body := [] },
        []) := by
  intro req
  have h1 : req.Path ≠ bytes "/" := by decide
  have h2 : req.Path ≠ bytes "/user-agent" := by decide
  have h3 : ¬ bytes "/echo/" <+: req.Path := by decide
  have h4 : ¬ (bytes "/files/" <+: req.Path ∧
      (req.Method = bytes "GET" ∨ req.Method = bytes "POST")) := by decide
  exact ⟨h1, h2, h3, h4, HandleRequest_not_found simplePlatform [] req ⟨[]⟩ h1 h2 h3 h4⟩

theorem ReadString_some (delim : Nat) (s : Bytes) :
    ∀ (line rest : Bytes), ReadString delim s = some (line, rest) →
      ∃ raw, line = raw ++ [delim] ∧ delim ∉ raw ∧ s = raw ++ delim :: rest := by
  induction s with
  | nil => intro line rest h; simp [ReadString] at h
  | cons b s ih =>
    intro line rest h
    simp only [ReadString] at h
    by_cases hb : b = delim
    · simp only [hb, if_true, Option.some.injEq, Prod.mk.injEq] at h
      obtain ⟨rfl, rfl⟩ := h
      exact ⟨[], by simp, by simp, by simp [hb]⟩
    · simp only [hb, if_false] at h
      cases hr : ReadString delim s with
      | none => simp [hr] at h
      | some lr =>
        obtain ⟨l2, r2⟩ := lr
        simp only [hr, Option.some.injEq, Prod.mk.injEq] at h
        obtain ⟨rfl, rfl⟩ := h
        obtain ⟨raw, h1, h2, h3⟩ := ih l2 r2 hr
        refine ⟨b :: raw, by simp [h1], ?_, by simp [h3]⟩
        intro hm
        rcases List.mem_cons.1 hm with e | e
        · exact hb e.symm
        · exact h2 e

theorem Split_parts (sep : Nat) (s : Bytes) : ∀ part ∈ Split sep s, sep ∉ part := by
  induction s with
  | nil => simp [Split]
  | cons b s ih =>
    intro part hp
    by_cases hb : b = sep
    · simp only [Split, hb, if_true, List.mem_cons] at hp
      rcases hp with rfl | hp
      · simp
      · exact ih part hp
    · cases hs : Split sep s with
      | nil => exact absurd hs (Split_ne_nil sep s)
      | cons p ps =>
        rw [hs] at ih
        simp only [Split, hb, if_false, hs, List.mem_cons] at hp
        rcases hp with rfl | hp
        · intro hm
          rcases List.mem_cons.1 hm with e | e
          · exact hb e.symm
          · exact ih p (by simp) e
        · exact ih part (by simp [hp])

/-- C18, as stated, fails: `GET foo HTTP/1.1` parses, and the path of the
request is `foo`, whose first byte is not `/`. -/
theorem ParseRequest_path_without_slash :
    ∃ req,
      ParseRequest (bytes "GET foo HTTP/1.1\r\n\r\n") = .ok (req, []) ∧
      req.Path = bytes "foo" ∧ ¬ bytes "/" <+: req.Path :=
  ⟨_, rfl, rfl, by decide⟩

/-- C18, as amended: the method, path and version of a parsed request are
the three parts into which the first line of the stream, trimmed, splits at
its spaces; the path is the second part as it stands, so it holds no space
and starts with `/` exactly when that part does. -/
theorem ParseRequest_path (s : Bytes) (req : HTTPRequest) (rest : Bytes)
    (h : ParseRequest s = .ok (req, rest)) :
    ∃ raw tail, s = raw ++ 10 :: tail ∧ 10 ∉ raw ∧
      Split 32 (TrimSpace (raw ++ [10])) = [req.Method, req.Path, req.Version] ∧
      32 ∉ req.Path := by
  unfold ParseRequest at h
  cases hr : ReadString 10 s with
  | none => simp [hr] at h
  | some lr =>
    obtain ⟨line, reader⟩ := lr
    obtain ⟨raw, h1, h2, h3⟩ := ReadString_some 10 s line reader hr
    subst h1
    simp only [hr] at h
    match hs : Split 32 (TrimSpace (raw ++ [10])), h with
    | [a, b, c], h =>
      simp only at h
      have key : req.Method = a ∧ req.Path = b ∧ req.Version = c := by
        cases hp : parseHeaders (reader.length + 1) [] reader with
        | error e => simp [hp] at h
        | ok r =>
          obtain ⟨headers, rd⟩ := r
          simp only [hp] at h
          cases hb : readBody headers rd with
          | error e => simp [hb] at h
          | ok r2 =>
            obtain ⟨body, rd2⟩ := r2
            simp only [hb, Except.ok.injEq, Prod.mk.injEq] at h
            obtain ⟨rfl, _⟩ := h
            exact ⟨rfl, rfl, rfl⟩
      obtain ⟨e1, e2, e3⟩ := key
      refine ⟨raw, reader, h3, h2, by rw [e1, e2, e3]; exact hs, ?_⟩
      rw [e2]
      exact Split_parts 32 _ b (by rw [hs]; simp)
    | [], h => simp at h
    | [_], h => simp at h
    | [_, _], h => simp at h
    | _ :: _ :: _ :: _ :: _, h => simp at h

/-- C18, as amended, at the request `GET foo HTTP/1.1`. -/
theorem ParseRequest_path_witness :
    ParseRequest (bytes "GET foo HTTP/1.1\r\n\r\n") =
      .ok ({ Method := bytes "GET", Path := bytes "foo", Version := bytes "HTTP/1.1",
             Headers := [], Body := [] }, []) ∧
    ∃ raw tail, bytes "GET foo HTTP/1.1\r\n\r\n" = raw ++ 10 :: tail ∧ 10 ∉ raw ∧
      Split 32 (TrimSpace (raw ++ [10])) = [bytes "GET", bytes "foo", bytes "HTTP/1.1"] ∧
      32 ∉ bytes "foo" :=
  ⟨rfl, ParseRequest_path (bytes "GET foo HTTP/1.1\r\n\r\n")
    { Method := bytes "GET", Path := bytes "foo", Version := bytes "HTTP/1.1",
      Headers := [], Body := [] } [] rfl⟩

theorem storeLines_skip (hs : GoMap) (ls1 ls2 : List Bytes) (l : Bytes) (hcolon : 58 ∉ l) :
    storeLines hs (ls1 ++ l :: ls2) = storeLines hs (ls1 ++ ls2) := by
  rw [storeLines_append, storeLines_cons, storeHeader_no_colon _ l hcolon, ← storeLines_append]

/-- C19: a non-blank line without a colon, put anywhere in the header block
of a request, does not change what `ParseRequest` returns: the same request
or the same error, and the same unread rest. -/
theorem ParseRequest_skips_line_without_colon (first : Bytes) (ls1 ls2 : List Bytes)
    (l tail : Bytes) (hfirst : 10 ∉ first) (hls1 : ∀ x ∈ ls1, HeaderLine x)
    (hls2 : ∀ x ∈ ls2, HeaderLine x) (hl : HeaderLine l) (hcolon : 58 ∉ l) :
    ParseRequest (first ++ 10 :: (joinLines (ls1 ++ l :: ls2) ++ CRLF ++ tail)) =
      ParseRequest (first ++ 10 :: (joinLines (ls1 ++ ls2) ++ CRLF ++ tail)) := by
  have h1 : ∀ x ∈ ls1 ++ l :: ls2, HeaderLine x := by
    intro x hx
    rcases List.mem_append.1 hx with h | h
    · exact hls1 x h
    · rcases List.mem_cons.1 h with rfl | h
      · exact hl
      · exact hls2 x h
  have h2 : ∀ x ∈ ls1 ++ ls2, HeaderLine x := by
    intro x hx
    rcases List.mem_append.1 hx with h | h
    · exact hls1 x h
    · exact hls2 x h
  have hf1 : (ls1 ++ l :: ls2).length <
      (joinLines (ls1 ++ l :: ls2) ++ CRLF ++ tail).length + 1 := by
    have := joinLines_length (ls1 ++ l :: ls2)
    simp only [List.length_append] at this ⊢; omega
  have hf2 : (ls1 ++ ls2).length < (joinLines (ls1 ++ ls2) ++ CRLF ++ tail).length + 1 := by
    have := joinLines_length (ls1 ++ ls2)
    simp only [List.length_append] at this ⊢; omega
  rw [ParseRequest, ParseRequest, ReadString_append 10 first _ hfirst,
    ReadString_append 10 first _ hfirst]
  simp only [parseHeaders_lines _ _ [] tail h1 hf1, parseHeaders_lines _ _ [] tail h2 hf2,
    storeLines_skip [] ls1 ls2 l hcolon]

/-- C19, at a `POST` request with the line `this line has no colon` between
its `Host` and `Content-Length` headers. -/
theorem ParseRequest_skips_line_without_colon_witness :
    10 ∉ bytes "POST /files/a HTTP/1.1\r" ∧
    (∀ x ∈ [bytes "Host: localhost"], HeaderLine x) ∧
    (∀ x ∈ [bytes "Content-Length: 2"], HeaderLine x) ∧
    HeaderLine (bytes "this line has no colon") ∧ 58 ∉ bytes "this line has no colon" ∧
    ParseRequest (bytes "POST /files/a HTTP/1.1\r" ++ 10 ::
      (joinLines ([bytes "Host: localhost"] ++ bytes "this line has no colon" ::
        [bytes "Content-Length: 2"]) ++ CRLF ++ bytes "hi")) =
      ParseRequest (bytes "POST /files/a HTTP/1.1\r" ++ 10 ::
        (joinLines ([bytes "Host: localhost"] ++ [bytes "Content-Length: 2"]) ++ CRLF ++
          bytes "hi")) ∧
    ParseRequest (bytes "POST /files/a HTTP/1.1\r" ++ 10 ::
        (joinLines ([bytes "Host: localhost"] ++ [bytes "Content-Length: 2"]) ++ CRLF ++
          bytes "hi")) =
      .ok ({ Method := bytes "POST", Path := bytes "/files/a", Version := bytes "HTTP/1.1",
             Headers := [(bytes "Host", bytes "localhost"), (bytes "Content-Length", bytes "2")],
             Body := bytes "hi" }, []) :=
  ⟨by decide, by decide, by decide, by decide, by decide,
    ParseRequest_skips_line_without_colon _ _ _ _ _ (by decide) (by decide) (by decide)
      (by decide) (by decide), rfl⟩

theorem readBody_declared (hs : GoMap) (body rest : Bytes) (h : DeclaredBody hs body) :
    readBody hs (body ++ rest) = .ok (body, rest) := by
  unfold DeclaredBody at h
  unfold readBody
  cases hc : mapGet hs (bytes "Content-Length") with
  | none =>
    rw [hc] at h
    simp only at h
    subst h
    rfl
  | some c =>
    rw [hc] at h
    cases hn : Atoi c with
    | none => simp [hn] at h
    | some n =>
      simp only [hn] at h ⊢
      by_cases hpos : n > 0
      · have hle : n.toNat ≤ (body ++ rest).length := by
          simp only [List.length_append]; omega
        have hle2 : body.length ≤ (body ++ rest).length := by simp
        simp only [hpos, if_true, ReadFull, ← h, List.take_left', List.drop_left', hle2]
      · have : body = [] := List.length_eq_zero.1 (by omega)
        subst this
        simp [hpos]

/-- A request made of a request line of three tokens, a block of header
lines, a blank line and the body declared under the exact name
`Content-Length` is consumed exactly: followed by any bytes `rest`, it parses
to the same request as on its own, and `rest` is what is left unread. -/
theorem ParseRequest_consumes_one_request (m p v : Bytes) (ls : List Bytes)
    (body rest : Bytes) (hm : Token m) (hp : Token p) (hv : Token v)
    (hls : ∀ l ∈ ls, HeaderLine l) (hbody : DeclaredBody (storeLines [] ls) body) :
    ∃ req,
      ParseRequest (requestLine m p v ++ joinLines ls ++ CRLF ++ body) = .ok (req, []) ∧
      ParseRequest (requestLine m p v ++ joinLines ls ++ CRLF ++ body ++ rest) =
        .ok (req, rest) ∧
      req.Body = body := by
  refine ⟨{ Method := m, Path := p, Version := v, Headers := storeLines [] ls,
            Body := body }, ?_, ?_, rfl⟩
  · have := readBody_declared _ body [] hbody
    rw [List.append_nil] at this
    rw [ParseRequest_wellformed m p v ls body hm hp hv hls, this]
  · have e : requestLine m p v ++ joinLines ls ++ CRLF ++ body ++ rest =
        requestLine m p v ++ joinLines ls ++ CRLF ++ (body ++ rest) := by simp
    rw [e, ParseRequest_wellformed m p v ls _ hm hp hv hls, readBody_declared _ body rest hbody]

/-- The same at a `POST` request with `Content-Length: 5` and a body of five
bytes, followed by the first bytes of a next request. -/
theorem ParseRequest_consumes_one_request_witness :
    Token (bytes "POST") ∧ Token (bytes "/files/a") ∧ Token (bytes "HTTP/1.1") ∧
    (∀ l ∈ [bytes "Host: localhost", bytes "Content-Length: 5"], HeaderLine l) ∧
    DeclaredBody (storeLines [] [bytes "Host: localhost", bytes "Content-Length: 5"])
      (bytes "hello") ∧
    ∃ req,
      ParseRequest (requestLine (bytes "POST") (bytes "/files/a") (bytes "HTTP/1.1") ++
        joinLines [bytes "Host: localhost", bytes "Content-Length: 5"] ++ CRLF ++
        bytes "hello") = .ok (req, []) ∧
      ParseRequest (requestLine (bytes "POST") (bytes "/files/a") (bytes "HTTP/1.1") ++
        joinLines [bytes "Host: localhost", bytes "Content-Length: 5"] ++ CRLF ++
        bytes "hello" ++ bytes "GET / HT") = .ok (req, bytes "GET / HT") ∧
      req.Body = bytes "hello" :=
  ⟨by decide, by decide, by decide, by decide, by decide,
    ParseRequest_consumes_one_request _ _ _ _ _ _ (by decide) (by decide) (by decide)
      (by decide) (by decide)⟩

theorem parseHeaders_length (fuel : Nat) :
    ∀ (hs : GoMap) (s : Bytes) (hs2 : GoMap) (rest : Bytes),
      parseHeaders fuel hs s = .ok (hs2, rest) → rest.length < s.length := by
  induction fuel with
  | zero => intro hs s hs2 rest h; simp [parseHeaders] at h
  | succ n ih =>
    intro hs s hs2 rest h
    simp only [parseHeaders] at h
    cases hr : ReadString 10 s with
    | none => simp [hr] at h
    | some lr =>
      obtain ⟨line, rd⟩ := lr
      have hl := (ReadString_length 10 s line rd hr).1
      simp only [hr] at h
      split_ifs at h
      · simp only [Except.ok.injEq, Prod.mk.injEq] at h
        obtain ⟨_, rfl⟩ := h
        exact hl
      · have := ih _ _ _ _ h
        omega

/-- A successful parse reads at least one byte. -/
theorem ParseRequest_length (s : Bytes) (req : HTTPRequest) (rest : Bytes)
    (h : ParseRequest s = .ok (req, rest)) : rest.length < s.length := by
  unfold ParseRequest at h
  cases hr : ReadString 10 s with
  | none => simp [hr] at h
  | some lr =>
    obtain ⟨line, rd⟩ := lr
    have hl := (ReadString_length 10 s line rd hr).1
    simp only [hr] at h
    split at h
    · cases hp : parseHeaders (rd.length + 1) [] rd with
      | error e => simp [hp] at h
      | ok r =>
        obtain ⟨headers, rd2⟩ := r
        have h2 := parseHeaders_length _ _ _ _ _ hp
        simp only [hp] at h
        cases hb : readBody headers rd2 with
        | error e => simp [hb] at h
        | ok r2 =>
          obtain ⟨body, rd3⟩ := r2
          have h3 := (readBody_length _ _ _ _ hb).1
          simp only [hb, Except.ok.injEq, Prod.mk.injEq] at h
          obtain ⟨_, rfl⟩ := h
          have h4 : rd3.length ≤ rd2.length := by
            rw [← h3]; simp
          omega
    · simp at h

/-- The connection loop never runs out of fuel: any two amounts of fuel above
the length of the stream give the same run. -/
theorem serve_fuel {σ : Type} (P : Platform σ) (config : Config) :
    ∀ (n : Nat) (order : RangeOrder) (writes : Nat) (fs : σ) (reader : Bytes),
      reader.length < n → ∀ m, reader.length < m →
        serve P config n order writes fs reader = serve P config m order writes fs reader := by
  intro n
  induction n with
  | zero => intro order writes fs reader h; omega
  | succ n ih =>
    intro order writes fs reader hn m hm
    obtain ⟨m, rfl⟩ : ∃ k, m = k + 1 := ⟨m - 1, by omega⟩
    simp only [serve]
    cases hp : ParseRequest reader with
    | error e => rfl
    | ok r =>
      obtain ⟨req, rd⟩ := r
      have hl := ParseRequest_length _ _ _ hp
      simp only
      cases writes with
      | zero => rfl
      | succ w =>
        simp only
        split_ifs
        · rfl
        · rw [ih (order.after 3) w _ rd (by omega) m (by omega)]

/-- One pass of the connection loop on a stream that starts with a request,
when the response can be written, whatever the orders in which the maps are
visited: the response is written, and the loop stops exactly when the value
`GetHeader` finds for `Connection` equals `close` ignoring case; otherwise it
goes on with the unread rest of the stream. -/
theorem handleConnection_step {σ : Type} (P : Platform σ) (config : Config)
    (order : RangeOrder) (writes : Nat) (fs : σ) (conn : Bytes) (req : HTTPRequest)
    (rest : Bytes) (hparse : ParseRequest conn = .ok (req, rest)) :
    handleConnection P config order (writes + 1) fs conn =
      if EqualFold P.foldUnicode
          ((req.inOrder (order.visit 1 req.Headers)).GetHeader P.foldUnicode
            (bytes "Connection")) (bytes "close") = true then
        ([((HandleRequest P fs (req.inOrder (order.visit 0 req.Headers)) config).1.inOrder
            (order.visit 2
              (HandleRequest P fs (req.inOrder (order.visit 0 req.Headers))
                config).1.Headers)).ToBytes],
          (HandleRequest P fs (req.inOrder (order.visit 0 req.Headers)) config).2)
      else
        (((HandleRequest P fs (req.inOrder (order.visit 0 req.Headers)) config).1.inOrder
            (order.visit 2
              (HandleRequest P fs (req.inOrder (order.visit 0 req.Headers))
                config).1.Headers)).ToBytes ::
          (handleConnection P config (order.after 3) writes
            (HandleRequest P fs (req.inOrder (order.visit 0 req.Headers)) config).2 rest).1,
         (handleConnection P config (order.after 3) writes
            (HandleRequest P fs (req.inOrder (order.visit 0 req.Headers)) config).2
            rest).2) := by
  have hl := ParseRequest_length _ _ _ hparse
  have hfuel := serve_fuel P config conn.length (order.after 3) writes
    (HandleRequest P fs (req.inOrder (order.visit 0 req.Headers)) config).2 rest
    hl (rest.length + 1) (by omega)
  rw [show handleConnection P config order (writes + 1) fs conn =
    serve P config (conn.length + 1) order (writes + 1) fs conn from rfl, serve]
  simp only [hparse]
  by_cases hc : EqualFold P.foldUnicode
      ((req.inOrder (order.visit 1 req.Headers)).GetHeader P.foldUnicode
        (bytes "Connection")) (bytes "close") = true
  · simp [hc]
  · simp only [hc, Bool.not_true, Bool.not_false, Bool.false_eq_true, if_false, hfuel]
    rfl

/-- On a stream that does not start with a request the loop writes nothing
and closes the connection. -/
theorem handleConnection_error {σ : Type} (P : Platform σ) (config : Config)
    (order : RangeOrder) (writes : Nat) (fs : σ) (conn : Bytes) (e : ParseError)
    (h : ParseRequest conn = .error e) :
    handleConnection P config order writes fs conn = ([], fs) := by
  simp [handleConnection, serve, h]

/-- A map of one entry is visited in one order only. -/
theorem RangeOrder.visit_singleton (order : RangeOrder) (k : Nat) (kv : Bytes × Bytes) :
    order.visit k [kv] = [kv] :=
  List.perm_singleton.1 (order.perm k [kv])

theorem RangeOrder.visit_nil (order : RangeOrder) (k : Nat) : order.visit k [] = [] :=
  List.perm_nil.1 (order.perm k [])

/-- Runs of the loop on the simple platform: two requests without a
`Connection` header are both answered; after `Connection: Close` the second
is not; and with the two spellings `Connection: close` and
`connection: keep-alive` in one request the run depends on the order in which
the map is visited. -/
theorem handleConnection_runs :
    handleConnection simplePlatform ⟨[]⟩ listedOrder 2 []
        (bytes "GET / HTTP/1.1\r\n\r\nGET /nope HTTP/1.1\r\n\r\n") =
      ([bytes "HTTP/1.1 200 OK\r\n\r\n", bytes "HTTP/1.1 404 Not Found\r\n\r\n"], []) ∧
    handleConnection simplePlatform ⟨[]⟩ listedOrder 2 []
        (bytes "GET / HTTP/1.1\r\nConnection: Close\r\n\r\nGET /nope HTTP/1.1\r\n\r\n") =
      ([bytes "HTTP/1.1 200 OK\r\n\r\n"], []) ∧
    handleConnection simplePlatform ⟨[]⟩ listedOrder 2 []
        (bytes ("GET / HTTP/1.1\r\nConnection: close\r\nconnection: keep-alive\r\n\r\n" ++
          "GET /nope HTTP/1.1\r\n\r\n")) =
      ([bytes "HTTP/1.1 200 OK\r\n\r\n"], []) ∧
    handleConnection simplePlatform ⟨[]⟩ reversedOrder 2 []
        (bytes ("GET / HTTP/1.1\r\nConnection: close\r\nconnection: keep-alive\r\n\r\n" ++
          "GET /nope HTTP/1.1\r\n\r\n")) =
      ([bytes "HTTP/1.1 200 OK\r\n\r\n", bytes "HTTP/1.1 404 Not Found\r\n\r\n"], []) :=
  ⟨by decide, by decide, by decide, by decide⟩

/-- On a stream of two requests that both parse, the first without
`Connection: close`, both are answered when two writes succeed, whatever the
orders in which the maps are visited. -/
theorem handleConnection_two_requests {σ : Type} (P : Platform σ) (config : Config)
    (order : RangeOrder) (writes : Nat) (fs : σ) (conn : Bytes) (req req2 : HTTPRequest)
    (rest : Bytes) (hparse : ParseRequest conn = .ok (req, rest))
    (hparse2 : ParseRequest rest = .ok (req2, []))
    (hkeep : EqualFold P.foldUnicode
      ((req.inOrder (order.visit 1 req.Headers)).GetHeader P.foldUnicode
        (bytes "Connection")) (bytes "close") = false) :
    (handleConnection P config order (writes + 2) fs conn).1.length = 2 := by
  rw [handleConnection_step P config order (writes + 1) fs conn req rest hparse,
    if_neg (by simp [hkeep]),
    handleConnection_step P config (order.after 3) writes _ rest req2 [] hparse2]
  split_ifs
  · rfl
  · rw [handleConnection_error P config _ writes _ [] .readRequestLine rfl]
    rfl

/-- C16: on the stream of the two requests `POST /files/a` with
`content-length: 3` and the body `a b`, and `GET /`, neither with a
`Connection` header, the loop writes one response and closes the connection,
on every platform and whatever the orders in which the maps are visited: the
first parse leaves the body unread, and `a bGET / HTTP/1.1` is not a request
line. -/
theorem handleConnection_second_request_unanswered {σ : Type} (P : Platform σ)
    (config : Config) (order : RangeOrder) (writes : Nat) (fs : σ) :
    ∃ req1 line,
      ParseRequest
        (bytes "POST /files/a HTTP/1.1\r\ncontent-length: 3\r\n\r\na bGET / HTTP/1.1\r\n\r\n") =
        .ok (req1, bytes "a bGET / HTTP/1.1\r\n\r\n") ∧
      req1.Body = [] ∧
      ParseRequest (bytes "a bGET / HTTP/1.1\r\n\r\n") = .error (.invalidRequestLine line) ∧
      (∃ req2, ParseRequest (bytes "GET / HTTP/1.1\r\n\r\n") = .ok (req2, [])) ∧
      (handleConnection P config order (writes + 1) fs
        (bytes
          "POST /files/a HTTP/1.1\r\ncontent-length: 3\r\n\r\na bGET / HTTP/1.1\r\n\r\n")).1.length
        = 1 := by
  refine ⟨{ Method := bytes "POST", Path := bytes "/files/a", Version := bytes "HTTP/1.1",
            Headers := [(bytes "content-length", bytes "3")], Body := [] },
    bytes "a bGET / HTTP/1.1", rfl, rfl, rfl, ⟨_, rfl⟩, ?_⟩
  rw [handleConnection_step P config order writes fs
    (bytes "POST /files/a HTTP/1.1\r\ncontent-length: 3\r\n\r\na bGET / HTTP/1.1\r\n\r\n")
    { Method := bytes "POST", Path := bytes "/files/a", Version := bytes "HTTP/1.1",
      Headers := [(bytes "content-length", bytes "3")], Body := [] }
    (bytes "a bGET / HTTP/1.1\r\n\r\n") rfl]
  have hkeep : EqualFold P.foldUnicode
      ((HTTPRequest.inOrder
        { Method := bytes "POST", Path := bytes "/files/a", Version := bytes "HTTP/1.1",
          Headers := [(bytes "content-length", bytes "3")], Body := [] }
        (order.visit 1 [(bytes "content-length", bytes "3")])).GetHeader P.foldUnicode
        (bytes "Connection")) (bytes "close") = false := by
    rw [RangeOrder.visit_singleton]
    rfl
  rw [if_neg (by simp [hkeep]),
    handleConnection_error P config _ writes _ (bytes "a bGET / HTTP/1.1\r\n\r\n")
      (.invalidRequestLine (bytes "a bGET / HTTP/1.1")) rfl]
  rfl

/-- C20: the request `POST /files/a` with `content-length: 5` and the body
`hello`, followed by any bytes `rest`, parses to a request with an empty body,
and what is left unread is `hello` and `rest`, not `rest`: the next
`ParseRequest` on the reader starts inside the body. -/
theorem ParseRequest_leaves_body_unread (rest : Bytes) :
    ParseRequest (bytes "POST /files/a HTTP/1.1\r\ncontent-length: 5\r\n\r\nhello" ++ rest) =
      .ok ({ Method := bytes "POST", Path := bytes "/files/a", Version := bytes "HTTP/1.1",
             Headers := [(bytes "content-length", bytes "5")], Body := [] },
        bytes "hello" ++ rest) ∧
    bytes "hello" ++ rest ≠ rest := by
  refine ⟨?_, ?_⟩
  · have e : bytes "POST /files/a HTTP/1.1\r\ncontent-length: 5\r\n\r\nhello" ++ rest =
        requestLine (bytes "POST") (bytes "/files/a") (bytes "HTTP/1.1") ++
          joinLines [bytes "content-length: 5"] ++ CRLF ++ (bytes "hello" ++ rest) := rfl
    rw [e, ParseRequest_wellformed _ _ _ _ _ (by decide) (by decide) (by decide) (by decide)]
    rfl
  · intro h
    have := congrArg List.length h
    simp [bytes, encodeRune] at this
    omega

/-- C17, as stated, fails: the 200 response to `GET /files/x` has two
headers, and serialised with its map visited in one order and in the other it
gives different bytes, although both dispatches return the same response. -/
theorem ToBytes_order_matters :
    let fs : GoMap := [(bytes "/tmp/x", bytes "hi")]
    let req : HTTPRequest :=
      { Method := bytes "GET", Path := bytes "/files/x", Version := bytes "HTTP/1.1",
        Headers := [], Body := [] }
    let first := HandleRequest simplePlatform fs req ⟨bytes "/tmp"⟩
    let second := HandleRequest simplePlatform first.2 req ⟨bytes "/tmp"⟩
    second = first ∧ first.1.StatusCode = 200 ∧
    first.1.Headers.reverse.Perm second.1.Headers ∧
    first.1.ToBytes =
      bytes ("HTTP/1.1 200 OK\r\nContent-Type: application/octet-stream\r\n" ++
        "Content-Length: 2\r\n\r\nhi") ∧
    { second.1 with Headers := first.1.Headers.reverse }.ToBytes =
      bytes ("HTTP/1.1 200 OK\r\nContent-Length: 2\r\n" ++
        "Content-Type: application/octet-stream\r\n\r\nhi") ∧
    first.1.ToBytes ≠ { second.1 with Headers := first.1.Headers.reverse }.ToBytes := by
  intro fs req first second
  refine ⟨by decide, by decide, by decide, by decide, by decide, by decide⟩

/-- C17, as amended: with a storage root and the file there, dispatching
`GET /files/<name>` twice gives the same 200 response both times and leaves
the file system as it was; serialised, the two have the same status line, the
same header lines and the same body, the header lines in the order in which
each `ToBytes` visits the map, so the bytes are equal when the two orders
are. -/
theorem HandleRequest_file_get_twice {σ : Type} (P : Platform σ) (fs : σ)
    (req : HTTPRequest) (config : Config) (name contents : Bytes)
    (hpath : req.Path = bytes "/files/" ++ name) (hmethod : req.Method = bytes "GET")
    (hdir : config.Directory ≠ [])
    (hread : P.ReadFile fs (P.Join config.Directory name) = some contents) :
    HandleRequest P fs req config =
      ({ StatusCode := 200, StatusText := bytes "OK",
         Headers := [(bytes "Content-Type", bytes "application/octet-stream"),
                     (bytes "Content-Length", formatInt (contents.length : Int))],
         Body := contents }, fs) ∧
    HandleRequest P (HandleRequest P fs req config).2 req config =
      HandleRequest P fs req config ∧
    ∀ it1 it2 : GoMap, it1.Perm (HandleRequest P fs req config).1.Headers →
      it2.Perm (HandleRequest P fs req config).1.Headers →
      { (HandleRequest P fs req config).1 with Headers := it1 }.ToBytes =
        bytes "HTTP/1.1 200 OK\r\n" ++ (it1.map headerLine).flatten ++ CRLF ++ contents ∧
      { (HandleRequest P (HandleRequest P fs req config).2 req config).1 with
          Headers := it2 }.ToBytes =
        bytes "HTTP/1.1 200 OK\r\n" ++ (it2.map headerLine).flatten ++ CRLF ++ contents ∧
      (it1.map headerLine).Perm (it2.map headerLine) := by
  obtain ⟨h1, h2, h3, h4, h5⟩ := files_path name
  have hres : HandleRequest P fs req config =
      ({ StatusCode := 200, StatusText := bytes "OK",
         Headers := [(bytes "Content-Type", bytes "application/octet-stream"),
                     (bytes "Content-Length", formatInt (contents.length : Int))],
         Body := contents }, fs) := by
    unfold HandleRequest
    simp only [hpath, h1, h2, h3, h4, h5, hmethod, if_true, if_false, handleFileGet, hdir,
      hread]
    rfl
  have hsecond : HandleRequest P (HandleRequest P fs req config).2 req config =
      HandleRequest P fs req config := by
    rw [hres]
    exact hres
  refine ⟨hres, hsecond, ?_⟩
  intro it1 it2 hp1 hp2
  rw [hsecond]
  refine ⟨?_, ?_, (hp1.trans hp2.symm).map _⟩
  · rw [hres]
    simp only [HTTPResponse.ToBytes, foldl_headerLine, List.nil_append]
    rfl
  · rw [hres]
    simp only [HTTPResponse.ToBytes, foldl_headerLine, List.nil_append]
    rfl

/-- C17, as amended, at `GET /files/x` on the simple platform with the file
`/tmp/x` holding `hi`, the map visited in its listed order the first time
and in the reverse order the second time. -/
theorem HandleRequest_file_get_twice_witness :
    let fs : GoMap := [(bytes "/tmp/x", bytes "hi")]
    let req : HTTPRequest :=
      { Method := bytes "GET", Path := bytes "/files/x", Version := bytes "HTTP/1.1",
        Headers := [], Body := [] }
    let config : Config := ⟨bytes "/tmp"⟩
    req.Path = bytes "/files/" ++ bytes "x" ∧ req.Method = bytes "GET" ∧
    config.Directory ≠ [] ∧
    simplePlatform.ReadFile fs (simplePlatform.Join config.Directory (bytes "x")) =
      some (bytes "hi") ∧
    HandleRequest simplePlatform (HandleRequest simplePlatform fs req config).2 req config =
      HandleRequest simplePlatform fs req config := by
  intro fs req config
  have h1 : req.Path = bytes "/files/" ++ bytes "x" := by decide
  have h2 : req.Method = bytes "GET" := rfl
  have h3 : config.Directory ≠ [] := by decide
  have h4 : simplePlatform.ReadFile fs (simplePlatform.Join config.Directory (bytes "x")) =
      some (bytes "hi") := by decide
  exact ⟨h1, h2, h3, h4,
    (HandleRequest_file_get_twice simplePlatform fs req config (bytes "x") (bytes "hi")
      h1 h2 h3 h4).2.1⟩

end HttpServer
